import Mathlib

/-!
# Constant folding of logical reductions, the greater-or-equal evaluator, the NV12 sample

A shallow embedding of
* `ngraph/core/src/pass/constant_folding_logical_reduction.cpp`
  (`fold_constant_logical_reduction`, the pattern built by
  `construct_constant_logical_reduction` and its callback),
* `ngraph/core/src/op/greater_eq.cpp`
  (`greater_equalop::evaluate`, `evaluate_greater_equal`, the two `evaluate` methods), and
* `inference-engine/samples/hello_nv12_input_classification/main.cpp`
  (`parseImageSize` and the buffer arithmetic of `main`).

Library code these files call but which is not part of the sources at hand (shapes,
coordinate transforms, the reference kernels, the matcher, `replace_node`) is modelled
from the specification; each such definition says so in its doc comment.
-/

namespace ngraph

/-! ## Element types, shapes, coordinates -/

/-- Modelled from the spec: the closed enumeration `element::Type_t` (boolean, signed and
unsigned integers of fixed widths, floats of several widths, plus the two non-value tags). -/
inductive Type_t
  | undefined | dynamic | boolean | bf16 | f16 | f32 | f64
  | i8 | i16 | i32 | i64 | u1 | u8 | u16 | u32 | u64
  deriving DecidableEq, Repr

/-- Modelled from the spec: a static `Shape`, an "ordered sequence of dimension sizes". -/
abbrev Shape := List Nat
/-- Modelled from the spec: a `Coordinate`, one index per dimension. -/
abbrev Coordinate := List Nat
/-- Modelled from the spec: the reduction axes, "dimension indices collapsed by a reduction
op" (`AxisSet`, a set of axis numbers; only membership is ever asked of it). -/
abbrev AxisSet := List Nat
/-- Modelled from the spec: a shape that "may be fully static or contain unknown dimensions"
(`PartialShape`); `none` is an unknown dimension. -/
abbrev PShape := List (Option Nat)

/-- Modelled from the spec: `shape_size`, "total element count = product of dimensions"; `1`
for a scalar. -/
def shape_size : Shape → Nat
  | [] => 1
  | d :: ds => d * shape_size ds

/-- Modelled from the spec: `PartialShape::is_static`, whether the shape is "fully static". -/
def PShape_is_static (ps : PShape) : Bool := ps.all Option.isSome

/-- Modelled from the spec: `PartialShape::to_shape`; reading the static shape is an error
"when a required dimension is still unknown". -/
def PShape_to_shape (ps : PShape) : Except String Shape :=
  if PShape_is_static ps then .ok (ps.map (fun d => d.getD 0))
  else .error "to_shape was called on a dynamic shape."

/-- Modelled from the spec: the coordinates of a shape in row-major order, the order in which
a `CoordinateTransform` over the whole shape is iterated. -/
def coordinates : Shape → List Coordinate
  | [] => [[]]
  | d :: ds => (List.range d).flatMap (fun c => (coordinates ds).map (fun cs => c :: cs))

/-- Modelled from the spec: the row-major linear index of a coordinate
(`CoordinateTransform::index`). -/
def index : Shape → Coordinate → Nat
  | _ :: ds, c :: cs => c * shape_size ds + index ds cs
  | _, _ => 0

/-- Modelled from the spec: "output shape removes reduced axes, or keeps them as size 1 if
keep-dims is set". Walks the axis values from axis number `i` on; a reduced axis is dropped,
or replaced by `fill` when `keep_dims` is set. -/
def reduce_from (fill : Nat) (deleted_axes : AxisSet) (keep_dims : Bool) :
    Nat → List Nat → List Nat
  | _, [] => []
  | i, v :: vs =>
    if i ∈ deleted_axes then
      if keep_dims then fill :: reduce_from fill deleted_axes keep_dims (i + 1) vs
      else reduce_from fill deleted_axes keep_dims (i + 1) vs
    else v :: reduce_from fill deleted_axes keep_dims (i + 1) vs

/-- Modelled from the spec: the shape of a reduction's output; a kept reduced axis has size 1. -/
def reduce (input_shape : Shape) (deleted_axes : AxisSet) (keep_dims : Bool) : Shape :=
  reduce_from 1 deleted_axes keep_dims 0 input_shape

/-- Modelled from the spec: the output position an input coordinate maps to along the reduced
axes; a kept reduced axis has the single coordinate 0. -/
def reduce_coordinate (input_coord : Coordinate) (deleted_axes : AxisSet) (keep_dims : Bool) :
    Coordinate :=
  reduce_from 0 deleted_axes keep_dims 0 input_coord

/-! ## The logical-reduction reference kernels -/

/-- The truth value C++ gives a `char` (non-zero is true). -/
def truthy (c : Int) : Bool := c != 0

/-- The `char` C++ stores for a `bool`. -/
def of_bool (b : Bool) : Int := if b then 1 else 0

/-- Modelled from the spec: `runtime::reference::reduce_logical_and`. Every output position is
first set to the identity `true`; then every input element is and-ed into the output position
it maps to. `out` is the caller's buffer. -/
def reduce_logical_and (arg out : List Int) (input_shape : Shape) (reduction_axes : AxisSet)
    (keep_dims : Bool) : List Int :=
  let out_shape := reduce input_shape reduction_axes keep_dims
  let out0 := (coordinates out_shape).foldl (fun o oc => o.set (index out_shape oc) 1) out
  (coordinates input_shape).foldl
    (fun o ic =>
      let k := index out_shape (reduce_coordinate ic reduction_axes keep_dims)
      o.set k (of_bool (truthy (o.getD k 0) && truthy (arg.getD (index input_shape ic) 0))))
    out0

/-- Modelled from the spec: `runtime::reference::reduce_logical_or`. Every output position is
first set to the identity `false`; then every input element is or-ed into the output position
it maps to. -/
def reduce_logical_or (arg out : List Int) (input_shape : Shape) (reduction_axes : AxisSet)
    (keep_dims : Bool) : List Int :=
  let out_shape := reduce input_shape reduction_axes keep_dims
  let out0 := (coordinates out_shape).foldl (fun o oc => o.set (index out_shape oc) 0) out
  (coordinates input_shape).foldl
    (fun o ic =>
      let k := index out_shape (reduce_coordinate ic reduction_axes keep_dims)
      o.set k (of_bool (truthy (o.getD k 0) || truthy (arg.getD (index input_shape ic) 0))))
    out0

/-- The input elements that map to output position `oc` along the reduced axes, in iteration
order. -/
def slice_of (arg : List Int) (input_shape : Shape) (reduction_axes : AxisSet)
    (keep_dims : Bool) (oc : Coordinate) : List Int :=
  ((coordinates input_shape).filter
      (fun ic => reduce_coordinate ic reduction_axes keep_dims = oc)).map
    (fun ic => arg.getD (index input_shape ic) 0)

/-- What the specification says a logical AND reduction evaluates to: position by position,
the conjunction of all input elements that map to it. -/
def reduce_logical_and_spec (arg : List Int) (input_shape : Shape) (reduction_axes : AxisSet)
    (keep_dims : Bool) : List Int :=
  (coordinates (reduce input_shape reduction_axes keep_dims)).map
    (fun oc => of_bool ((slice_of arg input_shape reduction_axes keep_dims oc).all truthy))

/-- What the specification says a logical OR reduction evaluates to: position by position,
the disjunction of all input elements that map to it. -/
def reduce_logical_or_spec (arg : List Int) (input_shape : Shape) (reduction_axes : AxisSet)
    (keep_dims : Bool) : List Int :=
  (coordinates (reduce input_shape reduction_axes keep_dims)).map
    (fun oc => of_bool ((slice_of arg input_shape reduction_axes keep_dims oc).any truthy))

/-! ## Nodes and graphs -/

/-- Modelled from the spec: the op kind of a node, "a closed tagged variant"
(`Node::get_type_info`), with the kinds that occur here. -/
inductive NodeTypeInfo
  | Constant | Parameter | Result | ReduceLogicalAnd | ReduceLogicalOr | GreaterEq | GreaterEqual
  deriving DecidableEq, Repr

/-- Modelled from the spec: the metadata of a node (`Node::get_rt_info`), a list of attribute
names. -/
abbrev RTMap := List String

/-- Modelled from the spec: a node, holding "references to input nodes' outputs and an output
TensorDescriptor computed by shape/type inference". Every node here has exactly one output,
described by `element_type` and `pshape`; `inputs` holds, per input, the arena index of the
node whose output it reads; `data` is the payload of a `Constant`, one entry per element;
`name` is the unique name and `friendly_name` the name the user gave. -/
structure Node where
  type_info : NodeTypeInfo
  inputs : List Nat
  name : String
  friendly_name : String
  rt_info : RTMap
  keep_dims : Bool
  element_type : Type_t
  pshape : PShape
  data : List Int
  deriving DecidableEq, Repr

instance : Inhabited Node :=
  ⟨{ type_info := .Parameter, inputs := [], name := "", friendly_name := "", rt_info := [],
     keep_dims := false, element_type := .undefined, pshape := [], data := [] }⟩

/-- Modelled from the spec: "an arena of nodes addressed by stable indices"; `results` are the
declared outputs. A replaced node stays in the arena, unreachable, until a later garbage pass. -/
structure Graph where
  nodes : List Node
  results : List Nat
  deriving DecidableEq, Repr

/-- Modelled from the spec: the node stored at an arena index. -/
def Graph.node (g : Graph) (id : Nat) : Node := g.nodes.getD id default

/-- Modelled from the spec: store a node at an arena index. -/
def Graph.set_node (g : Graph) (id : Nat) (n : Node) : Graph :=
  { g with nodes := g.nodes.set id n }

/-- Modelled from the spec: "add a node"; a freshly made node goes to the end of the arena.
Returns the graph and the new index. -/
def Graph.add_node (g : Graph) (n : Node) : Graph × Nat :=
  ({ g with nodes := g.nodes ++ [n] }, g.nodes.length)

/-- Modelled from the spec: "enumerate consumers", the nodes that read the output of node
`id` (`Output::get_target_inputs`). -/
def Graph.consumers (g : Graph) (id : Nat) : List Nat :=
  (List.range g.nodes.length).filter (fun c => id ∈ (g.node c).inputs)

/-- Modelled from the spec: the accessor `Node::get_friendly_name` of the node's name. -/
def Node.get_friendly_name (n : Node) : String := n.friendly_name

/-- Modelled from the spec: the setter `Node::set_friendly_name`. -/
def Node.set_friendly_name (n : Node) (s : String) : Node := { n with friendly_name := s }

/-- Modelled from the spec: "read an output's type" (`Node::get_output_element_type(0)`). -/
def Node.get_output_element_type (n : Node) : Type_t := n.element_type

/-- Modelled from the spec: "read an output's shape" (`Node::get_shape`); an error while the
shape is dynamic. -/
def Node.get_shape (n : Node) : Except String Shape := PShape_to_shape n.pshape

/-- Modelled from the spec: the keep-dims attribute of a reduction (`get_keep_dims`). -/
def Node.get_keep_dims (n : Node) : Bool := n.keep_dims

/-- Modelled from the spec: the static shape of the output feeding input `i`
(`Node::get_input_shape`). -/
def get_input_shape (g : Graph) (n : Node) (i : Nat) : Except String Shape :=
  match n.inputs.get? i with
  | some src => (g.node src).get_shape
  | none => .error "input index out of range"

/-- Modelled from the spec: the "axis-set input" of a logical reduction
(`get_reduction_axes`): the values of the constant feeding input 1, a negative value
counting as axis 0; empty when that input is no constant. -/
def get_reduction_axes (g : Graph) (n : Node) : AxisSet :=
  match n.inputs.get? 1 with
  | some a =>
    if (g.node a).type_info = .Constant then (g.node a).data.map Int.toNat else []
  | none => []

/-- Modelled from the spec: the node `make_shared<op::Constant>(type, shape, data_ptr)`
builds, a constant that "holds a TensorDescriptor and an owned buffer sized
element_count × element_width": it copies `shape_size shape` elements from the buffer. -/
def make_constant (name : String) (et : Type_t) (shape : Shape) (data_ptr : List Int) : Node :=
  { type_info := .Constant, inputs := [], name := name, friendly_name := "", rt_info := [],
    keep_dims := false, element_type := et, pshape := shape.map some,
    data := data_ptr.take (shape_size shape) }

/-- The text of the internal-error check of `fold_constant_logical_reduction`. -/
def internal_error : String :=
  "Internal nGraph error: Ops handled in fold_constant_logical_reduction must be consistent with those matched in construct_constant_logical_reduction"

/-- The function `fold_constant_logical_reduction`: allocate a buffer of
`shape_size(reduction_node->get_shape()) * sizeof(char)` bytes, run the kernel of the node's
kind on the constant's data, and build a constant of the node's output type and shape from
the buffer. The buffer starts out zeroed here; both kernels overwrite every position they own. -/
def fold_constant_logical_reduction (g : Graph) (constant reduction_node : Node) :
    Except String Node := do
  let out_shape ← reduction_node.get_shape
  let buffer : List Int := List.replicate (shape_size out_shape * 1) 0
  let data_ptr ←
    if reduction_node.type_info = .ReduceLogicalAnd then do
      let reduction_axes := get_reduction_axes g reduction_node
      let input_shape ← get_input_shape g reduction_node 0
      pure (reduce_logical_and constant.data buffer input_shape reduction_axes
        reduction_node.get_keep_dims)
    else if reduction_node.type_info = .ReduceLogicalOr then do
      let reduction_axes := get_reduction_axes g reduction_node
      let input_shape ← get_input_shape g reduction_node 0
      pure (reduce_logical_or constant.data buffer input_shape reduction_axes
        reduction_node.get_keep_dims)
    else
      throw internal_error
  pure (make_constant ("Constant_" ++ toString g.nodes.length)
    reduction_node.get_output_element_type out_shape data_ptr)

/-- Modelled from the spec: the output descriptor shape/type inference gives a logical
reduction: the element type of the data input, and its shape with the reduced axes removed,
or kept as size 1 under keep-dims. -/
def infer_reduction (g : Graph) (n : Node) : Except String (Type_t × Shape) := do
  let input_shape ← get_input_shape g n 0
  pure ((g.node (n.inputs.getD 0 0)).element_type,
        reduce input_shape (get_reduction_axes g n) n.keep_dims)

/-- Whether the node's stored output descriptor is the one inference derives from its current
inputs ("a node's output shape/type must be re-derivable from its current inputs"). -/
def is_validated (g : Graph) (n : Node) : Bool :=
  match infer_reduction g n with
  | .ok d => decide (n.element_type = d.1) && decide (n.pshape = d.2.map some)
  | .error _ => false

/-! ## Library helpers the pass relies on -/

/-- The helpers of the pass whose code is not part of the sources at hand, taken as
parameters: the fold-disabled flag test, a node's shape/type inference (what
`revalidate_and_infer_types` recomputes for the node at an index), and the merge of runtime
attributes done by `copy_runtime_info`. -/
structure Env where
  cf_is_disabled : Node → Bool
  validate_and_infer_types : Graph → Nat → Type_t × PShape
  copy_runtime_info : RTMap → RTMap → RTMap

/-- Modelled from the spec: the helper `revalidate_and_ensure_static`, step (2) of the pass:
"re-run shape/type inference" on the node, which stores the new output descriptor, and report
whether the output is now fully static. -/
def revalidate_and_ensure_static (env : Env) (g : Graph) (id : Nat) : Graph × Bool :=
  let d := env.validate_and_infer_types g id
  let g1 := g.set_node id { g.node id with element_type := d.1, pshape := d.2 }
  (g1, PShape_is_static d.2 && decide (d.1 ≠ Type_t.dynamic))

/-- Modelled from the spec: `replace(old, new)` "rewires every consumer edge from `old` to the
matching output of `new`". Every node has one output, so the arity requirement always holds. -/
def replace_node (g : Graph) (target replacement : Nat) : Graph :=
  { g with nodes := g.nodes.map (fun n =>
      { n with inputs := n.inputs.map (fun s => if s = target then replacement else s) }) }

/-- Modelled from the spec: the helper `copy_runtime_info_to_target_inputs` ("copy
name/metadata"): every consumer of the replacement gets the runtime attributes of the replaced
node merged into its own. -/
def copy_runtime_info_to_target_inputs (env : Env) (g : Graph) (node replacement : Nat) :
    Graph :=
  { g with nodes := g.nodes.map (fun c =>
      if replacement ∈ c.inputs then
        { c with rt_info := env.copy_runtime_info (g.node node).rt_info c.rt_info }
      else c) }

/-! ## The pattern and the matcher -/

/-- Modelled from the spec: the binding of pattern labels to graph nodes of a match
(`PatternMap`), keyed by the identity of the label. -/
abbrev PatternMap := List (Nat × Nat)

/-- Modelled from the spec: a pattern is a label with a predicate, or a wildcard constrained
by a predicate with child patterns for its inputs. The element type and shape a pattern node
is declared with take no part in matching. -/
inductive Pattern
  | Label (id : Nat) (pred : Node → Bool)
  | Any (pred : Node → Bool) (args : List Pattern)

mutual
/-- Modelled from the spec: a local match at a candidate node; a label binds to exactly one
node, a wildcard checks its predicate and then matches each pattern input against the
candidate's actual input. -/
def match_value (g : Graph) : Pattern → Nat → PatternMap → Option PatternMap
  | .Label id pred, v, m =>
    if pred (g.node v) then
      match m.lookup id with
      | some bound => if bound = v then some m else none
      | none => some ((id, v) :: m)
    else none
  | .Any pred args, v, m =>
    if pred (g.node v) then match_arguments g args (g.node v).inputs m else none
/-- Modelled from the spec: the pattern inputs against the actual inputs, pairwise; a
different number of inputs fails the match. -/
def match_arguments (g : Graph) : List Pattern → List Nat → PatternMap → Option PatternMap
  | [], [], m => some m
  | p :: ps, v :: vs, m =>
    match match_value g p v m with
    | some m1 => match_arguments g ps vs m1
    | none => none
  | _, _, _ => none
end

/-- Modelled from the spec: the result of a successful match (`pattern::Matcher`): the root
and the label bindings. -/
structure Matcher where
  match_root : Nat
  pattern_map : PatternMap
  deriving DecidableEq, Repr

/-- Modelled from the spec: the accessor `Matcher::get_match_root`. -/
def Matcher.get_match_root (m : Matcher) : Nat := m.match_root

/-- Modelled from the spec: the accessor `Matcher::get_pattern_map`. -/
def Matcher.get_pattern_map (m : Matcher) : PatternMap := m.pattern_map

/-- Modelled from the spec: "attempting a local match at [a] candidate root"
(`Matcher::match`), starting from no bindings. -/
def Matcher_match (g : Graph) (pattern : Pattern) (root : Nat) : Option Matcher :=
  (match_value g pattern root []).map (fun pm => { match_root := root, pattern_map := pm })

/-- Modelled from the spec: the predicate `pattern::has_class<T>()`, "a predicate over op
kind". -/
def has_class (t : NodeTypeInfo) (n : Node) : Bool := decide (n.type_info = t)

/-- The identity of the label `constant_data_label`. -/
def constant_data_label_id : Nat := 0

/-- The identity of the label `constant_axes_label`. -/
def constant_axes_label_id : Nat := 1

/-- The label `constant_data_label`: any constant (declared boolean of shape {2,3,4}). -/
def constant_data_label : Pattern := .Label constant_data_label_id (has_class .Constant)

/-- The label `constant_axes_label`: any constant (declared i64 of shape {2}). -/
def constant_axes_label : Pattern := .Label constant_axes_label_id (has_class .Constant)

/-- The root predicate `is_supported_reduction` of the pattern. -/
def is_supported_reduction (n : Node) : Bool :=
  has_class .ReduceLogicalAnd n || has_class .ReduceLogicalOr n

/-- The pattern `reduction` of `construct_constant_logical_reduction`. -/
def reduction : Pattern := .Any is_supported_reduction [constant_data_label, constant_axes_label]

/-! ## The callback and the pass -/

/-- The message of a failed `NGRAPH_CHECK(revalidate_and_ensure_static(reduction_match))`. -/
def check_failure : String := "Check 'revalidate_and_ensure_static(reduction_match)' failed"

/-- The callback `constant_logical_reduction_callback`. Returns the graph as the callback
leaves it, together with either the callback's boolean result or the error it raised. -/
def constant_logical_reduction_callback (env : Env) (g : Graph) (m : Matcher) :
    Graph × Except String Bool :=
  let pattern_map := m.get_pattern_map
  let constant_match := (pattern_map.lookup constant_data_label_id).getD 0
  let reduction_match := m.get_match_root
  if env.cf_is_disabled (g.node reduction_match) then (g, .ok false)
  else
    let r := revalidate_and_ensure_static env g reduction_match
    if r.2 = false then (r.1, .error check_failure)
    else
      match fold_constant_logical_reduction r.1 (r.1.node constant_match)
          (r.1.node reduction_match) with
      | .error e => (r.1, .error e)
      | .ok const_node =>
        let const_node :=
          const_node.set_friendly_name (r.1.node reduction_match).get_friendly_name
        let a := r.1.add_node const_node
        let g2 := replace_node a.1 reduction_match a.2
        let g3 := copy_runtime_info_to_target_inputs env g2 reduction_match a.2
        (g3, .ok true)

/-- Modelled from the spec: one expansion step of the set of nodes reachable from the
results: add the nodes the live nodes read. -/
def reach_step (g : Graph) (live : List Nat) : List Nat :=
  live ++ ((live.flatMap (fun v => (g.node v).inputs)).eraseDups).filter (fun v => v ∉ live)

/-- Modelled from the spec: the graph "owns all nodes reachable from its outputs"; these are
the nodes a scan visits (`get_ordered_ops`), in arena order. -/
def get_ordered_ops (g : Graph) : List Nat :=
  let live := Nat.iterate (reach_step g) g.nodes.length g.results
  (List.range g.nodes.length).filter (fun v => v ∈ live)

/-- Modelled from the spec: one scan. At each candidate try the pattern; on a match run the
callback; an error raised by the callback ends the pass at once. The boolean tells whether
some callback rewrote the graph. -/
def scan (env : Env) : List Nat → Graph → Graph × Except String Bool
  | [], g => (g, .ok false)
  | n :: ns, g =>
    match Matcher_match g reduction n with
    | none => scan env ns g
    | some m =>
      match constant_logical_reduction_callback env g m with
      | (g1, .error e) => (g1, .error e)
      | (g1, .ok rewritten) =>
        match scan env ns g1 with
        | (g2, .error e) => (g2, .error e)
        | (g2, .ok more) => (g2, .ok (rewritten || more))

/-- Modelled from the spec: "the pass repeats full scans until a traversal finds no further
match": a scan in which no callback rewrote the graph ends the pass; `tries` bounds the
number of scans. -/
def run_on_function (env : Env) : Nat → Graph → Graph × Except String Bool
  | 0, g => (g, .ok false)
  | tries + 1, g =>
    match scan env (get_ordered_ops g) g with
    | (g1, .error e) => (g1, .error e)
    | (g1, .ok false) => (g1, .ok false)
    | (g1, .ok true) =>
      match run_on_function env tries g1 with
      | (g2, .error e) => (g2, .error e)
      | (g2, .ok _) => (g2, .ok true)

/-! ## Well-formed inputs of the pass -/

/-- Modelled from the spec: what `validate_and_infer_types`, whose code is not part of the
sources at hand, computes for a logical reduction whose input shape is known: the element type
of the data input and "output shape removes reduced axes, or keeps them as size 1 if keep-dims
is set". The helpers `env` follow this rule. -/
def infers_reductions (env : Env) : Prop :=
  ∀ (g : Graph) (id : Nat) (d : Type_t × Shape), is_supported_reduction (g.node id) = true →
    infer_reduction g (g.node id) = .ok d →
    env.validate_and_infer_types g id = (d.1, d.2.map some)

/-- Whether the pass can ever fold node `i` of the graph: it is a supported reduction and its
axes input is a constant already, or is itself a supported reduction, which a fold may turn
into a constant (or is no node of the graph at all). -/
def foldable (g : Graph) (i : Nat) : Bool :=
  is_supported_reduction (g.node i) &&
    match (g.node i).inputs.get? 1 with
    | some a =>
      decide (g.nodes.length ≤ a) || has_class .Constant (g.node a) ||
        is_supported_reduction (g.node a)
    | none => false

/-- What may differ between the graph `g` the pass started from and a later state `g1`: nodes
are only added, and the added nodes are constants; an old node keeps its kind, names,
attributes, payload and number of inputs; an input edge either still reads the node it read,
or it read a foldable reduction and now reads an added constant; the output descriptor of a
node that is not foldable is as it was. -/
structure Frame (g g1 : Graph) : Prop where
  length_le : g.nodes.length ≤ g1.nodes.length
  same : ∀ i, i < g.nodes.length →
    (g1.node i).type_info = (g.node i).type_info ∧ (g1.node i).name = (g.node i).name ∧
    (g1.node i).friendly_name = (g.node i).friendly_name ∧
    (g1.node i).keep_dims = (g.node i).keep_dims ∧ (g1.node i).data = (g.node i).data ∧
    (g1.node i).inputs.length = (g.node i).inputs.length
  fresh : ∀ i, g.nodes.length ≤ i → i < g1.nodes.length → (g1.node i).type_info = .Constant
  edges : ∀ i k s, i < g.nodes.length → (g.node i).inputs.get? k = some s →
    (g1.node i).inputs.get? k = some s ∨
    (foldable g s = true ∧ s < g.nodes.length ∧
      ∃ s1, (g1.node i).inputs.get? k = some s1 ∧ g.nodes.length ≤ s1 ∧ s1 < g1.nodes.length)
  descr : ∀ i, i < g.nodes.length → foldable g i = false →
    (g1.node i).element_type = (g.node i).element_type ∧ (g1.node i).pshape = (g.node i).pshape

/-- The reductions that some node of the arena still reads: the nodes a fold can still
replace. Their number goes down with every fold. -/
def pending_reductions (g : Graph) : List Nat :=
  (List.range g.nodes.length).filter
    (fun i => is_supported_reduction (g.node i) && !(g.consumers i).isEmpty)

/-- Whether every declared output of the graph is a `Result` node, as a graph is built. -/
def results_wf (g : Graph) : Bool := g.results.all (fun r => has_class .Result (g.node r))

/-! ## Example graphs -/

/-- A constant node as the graph builder makes it. -/
def example_constant (name : String) (et : Type_t) (shape : Shape) (data : List Int) : Node :=
  { type_info := .Constant, inputs := [], name := name, friendly_name := "", rt_info := [],
    keep_dims := false, element_type := et, pshape := shape.map some, data := data }

/-- A node without payload. -/
def example_op (kind : NodeTypeInfo) (name friendly : String) (inputs : List Nat)
    (keep_dims : Bool) (et : Type_t) (pshape : PShape) : Node :=
  { type_info := kind, inputs := inputs, name := name, friendly_name := friendly, rt_info := [],
    keep_dims := keep_dims, element_type := et, pshape := pshape, data := [] }

/-- Scenario B: reduce-logical-and of a 2x3 all-true boolean constant along axis 1, without
keep-dims, feeding a result. -/
def scenario_B : Graph :=
  { nodes := [example_constant "Constant_0" .boolean [2, 3] [1, 1, 1, 1, 1, 1],
              example_constant "Constant_1" .i64 [1] [1],
              example_op .ReduceLogicalAnd "ReduceLogicalAnd_2" "all_rows" [0, 1] false
                .boolean [some 2],
              example_op .Result "Result_3" "" [2] false .boolean [some 2]],
    results := [3] }

/-- Scenario C: reduce-logical-or of a boolean constant of shape 2x0 along the zero-sized
axis 1. -/
def scenario_C : Graph :=
  { nodes := [example_constant "Constant_0" .boolean [2, 0] [],
              example_constant "Constant_1" .i64 [1] [1],
              example_op .ReduceLogicalOr "ReduceLogicalOr_2" "any_rows" [0, 1] false
                .boolean [some 2],
              example_op .Result "Result_3" "" [2] false .boolean [some 2]],
    results := [3] }

/-- A reduction with keep-dims over both axes of a 2x3 constant with one false element. -/
def scenario_keep : Graph :=
  { nodes := [example_constant "Constant_0" .boolean [2, 3] [1, 1, 0, 1, 1, 1],
              example_constant "Constant_1" .i64 [2] [0, 1],
              example_op .ReduceLogicalAnd "ReduceLogicalAnd_2" "all" [0, 1] true
                .boolean [some 1, some 1],
              example_op .Result "Result_3" "" [2] false .boolean [some 1, some 1]],
    results := [3] }

/-- Helpers for the examples: a node is fold-disabled when its runtime attributes say so,
inference derives a reduction's descriptor from its inputs, and merging attributes appends. -/
def example_env : Env :=
  { cf_is_disabled := fun n => n.rt_info.contains "DISABLED_CONSTANT_FOLDING",
    validate_and_infer_types := fun g id =>
      match infer_reduction g (g.node id) with
      | .ok d => (d.1, d.2.map some)
      | .error _ => ((g.node id).element_type, (g.node id).pshape),
    copy_runtime_info := fun a b => a ++ b }

/-- Helpers whose inference still reports an unknown dimension for every node. -/
def dynamic_env : Env :=
  { example_env with validate_and_infer_types := fun _ _ => (Type_t.boolean, [none]) }

/-- Scenario B with the reduction flagged fold-disabled. -/
def scenario_disabled : Graph :=
  { nodes := [example_constant "Constant_0" .boolean [2, 3] [1, 1, 1, 1, 1, 1],
              example_constant "Constant_1" .i64 [1] [1],
              { example_op .ReduceLogicalAnd "ReduceLogicalAnd_2" "all_rows" [0, 1] false
                  .boolean [some 2] with rt_info := ["DISABLED_CONSTANT_FOLDING"] },
              example_op .Result "Result_3" "" [2] false .boolean [some 2]],
    results := [3] }

/-- The match of the pattern at node 2 of the scenarios: both labels bound. -/
def example_match : Matcher :=
  { match_root := 2, pattern_map := [(constant_axes_label_id, 1), (constant_data_label_id, 0)] }

/-- Scenario B after the fold: the constant `[true, true]` of shape {2} is node 4, it has the
friendly name of the reduction, and the result reads it. -/
def scenario_B_folded : Graph :=
  { nodes := [example_constant "Constant_0" .boolean [2, 3] [1, 1, 1, 1, 1, 1],
              example_constant "Constant_1" .i64 [1] [1],
              example_op .ReduceLogicalAnd "ReduceLogicalAnd_2" "all_rows" [0, 1] false
                .boolean [some 2],
              example_op .Result "Result_3" "" [4] false .boolean [some 2],
              { example_constant "Constant_4" .boolean [2] [1, 1] with
                  friendly_name := "all_rows" }],
    results := [3] }

/-- Helpers under which only the node named `ReduceLogicalAnd_2` is fold-disabled. -/
def selective_env : Env :=
  { example_env with cf_is_disabled := fun n => n.name == "ReduceLogicalAnd_2" }

/-- Two reductions feeding one comparison: node 2 is fold-disabled under `selective_env`,
node 4 is not. -/
def scenario_two : Graph :=
  { nodes := [example_constant "Constant_0" .boolean [2, 3] [1, 1, 1, 1, 1, 1],
              example_constant "Constant_1" .i64 [1] [1],
              example_op .ReduceLogicalAnd "ReduceLogicalAnd_2" "kept" [0, 1] false
                .boolean [some 2],
              example_constant "Constant_3" .boolean [2, 3] [0, 1, 0, 0, 0, 0],
              example_op .ReduceLogicalOr "ReduceLogicalOr_4" "any_rows" [3, 1] false
                .boolean [some 2],
              example_op .GreaterEqual "GreaterEqual_5" "cmp" [2, 4] false .boolean [some 2],
              example_op .Result "Result_6" "" [5] false .boolean [some 2]],
    results := [6] }

/-- Modelled from the spec: a tensor in host memory (`HostTensor`), "shape + element type +
owned byte buffer": one entry per element; integer and boolean elements are held by value,
floating-point elements by bit pattern. -/
structure HostTensor where
  element_type : Type_t
  shape : Shape
  data : List Int
  deriving DecidableEq, Repr

/-- Modelled from the spec: the accessor `HostTensor::get_element_type`. -/
def HostTensor.get_element_type (t : HostTensor) : Type_t := t.element_type

/-- Modelled from the spec: the accessor `HostTensor::get_shape`. -/
def HostTensor.get_shape (t : HostTensor) : Shape := t.shape

/-- Modelled from the spec: the broadcasting modes of an elementwise binary operation: NONE,
NUMPY-style, and explicit-axis (`PDPD`). -/
inductive AutoBroadcastType
  | NONE | NUMPY | PDPD
  deriving DecidableEq, Repr

/-- Modelled from the spec: the broadcast rule of an operation (`AutoBroadcastSpec`): the
mode, and the start axis of the explicit-axis mode (`-1` for right alignment). -/
structure AutoBroadcastSpec where
  m_type : AutoBroadcastType
  m_axis : Int
  deriving DecidableEq, Repr

/-- Modelled from the spec: "trailing-dimension broadcast": right-align a shape to a rank by
padding it with leading ones. -/
def pad_left (rank : Nat) (s : Shape) : Shape := List.replicate (rank - s.length) 1 ++ s

/-- Modelled from the spec: merge two shapes of equal rank dimension by dimension: equal
sizes agree, a size of 1 gives way to the other; anything else is inconsistent. -/
def merge_dims : Shape → Shape → Option Shape
  | [], [] => some []
  | a :: as, b :: bs =>
    if a = b ∨ b = 1 then (merge_dims as bs).map (fun r => a :: r)
    else if a = 1 then (merge_dims as bs).map (fun r => b :: r)
    else none
  | _, _ => none

/-- Modelled from the spec: the broadcasting modes "NONE (exact shape match required),
NUMPY-style (trailing-dimension broadcast), explicit-axis". Gives the two argument shapes
aligned to a common rank and the output shape, or nothing when the shapes are inconsistent. -/
def broadcast_shapes (spec : AutoBroadcastSpec) (s0 s1 : Shape) :
    Option (Shape × Shape × Shape) :=
  match spec.m_type with
  | .NONE => if s0 = s1 then some (s0, s1, s0) else none
  | .NUMPY =>
    let r := max s0.length s1.length
    (merge_dims (pad_left r s0) (pad_left r s1)).map
      (fun o => (pad_left r s0, pad_left r s1, o))
  | .PDPD =>
    let axis : Int := if spec.m_axis = -1 then (s0.length : Int) - s1.length else spec.m_axis
    if 0 ≤ axis ∧ axis + s1.length ≤ s0.length then
      let p1 := List.replicate axis.toNat 1 ++ s1 ++
        List.replicate (s0.length - axis.toNat - s1.length) 1
      if merge_dims s0 p1 = some s0 then some (s0, p1, s0) else none
    else none

/-- Modelled from the spec: `HostTensor::set_broadcast`: give the output tensor the element
type asked for and the broadcast shape of the two arguments; inconsistent shapes are an error. -/
def HostTensor.set_broadcast (_out : HostTensor) (spec : AutoBroadcastSpec)
    (arg0 arg1 : HostTensor) (et : Type_t) : Except String HostTensor :=
  match broadcast_shapes spec arg0.get_shape arg1.get_shape with
  | some (_, _, o) =>
    .ok { element_type := et, shape := o, data := List.replicate (shape_size o) 0 }
  | none => .error "Argument shapes are inconsistent."

/-- Modelled from the spec: the coordinate of an argument that an output coordinate reads:
0 along a broadcast (size 1) dimension. -/
def broadcast_coordinate (padded : Shape) (c : Coordinate) : Coordinate :=
  List.zipWith (fun d x => if d = 1 then 0 else x) padded c

/-- Modelled from the spec: the element comparison `x >= y` of the element type: on the
values for boolean and integer types; for floating-point types the IEEE comparison `fge`, a
parameter. -/
def greater_eq_elem (fge : Type_t → Int → Int → Bool) (et : Type_t) (x y : Int) : Bool :=
  match et with
  | .bf16 | .f16 | .f32 | .f64 => fge et x y
  | _ => decide (x ≥ y)

/-- Modelled from the spec: `runtime::reference::greater_eq`, the broadcast-aware elementwise
kernel: every output element is `arg0 >= arg1` at the argument positions it reads. -/
def greater_eq (fge : Type_t → Int → Int → Bool) (et : Type_t) (arg0 arg1 out : List Int)
    (arg0_shape arg1_shape : Shape) (broadcast_spec : AutoBroadcastSpec) : List Int :=
  match broadcast_shapes broadcast_spec arg0_shape arg1_shape with
  | some (p0, p1, o) =>
    (coordinates o).map (fun c =>
      of_bool (greater_eq_elem fge et
        (arg0.getD (index p0 (broadcast_coordinate p0 c)) 0)
        (arg1.getD (index p1 (broadcast_coordinate p1 c)) 0)))
  | none => out

/-- The template `greater_equalop::evaluate<ET>`: run the kernel into the output tensor and
return `true`. -/
def evaluate (fge : Type_t → Int → Int → Bool) (ET : Type_t) (arg0 arg1 out : HostTensor)
    (broadcast_spec : AutoBroadcastSpec) : Bool × HostTensor :=
  (true, { out with data := greater_eq fge ET arg0.data arg1.data out.data
                      arg0.get_shape arg1.get_shape broadcast_spec })

/-- The function `greater_equalop::evaluate_greater_equal`. Each `TYPE_CASE(a)` is
`case element::Type_t::a: rc = evaluate<element::Type_t::a>`. Returns `rc` and the output
tensor, or the error raised by `set_broadcast`. -/
def evaluate_greater_equal (fge : Type_t → Int → Int → Bool) (arg0 arg1 out : HostTensor)
    (broadcast_spec : AutoBroadcastSpec) : Except String (Bool × HostTensor) := do
  let out ← out.set_broadcast broadcast_spec arg0 arg1 Type_t.boolean
  match arg0.get_element_type with
  | .boolean => pure (evaluate fge .boolean arg0 arg1 out broadcast_spec)
  | .i32 => pure (evaluate fge .i32 arg0 arg1 out broadcast_spec)
  | .i64 => pure (evaluate fge .i64 arg0 arg1 out broadcast_spec)
  | .u32 => pure (evaluate fge .u32 arg0 arg1 out broadcast_spec)
  | .u64 => pure (evaluate fge .u64 arg0 arg1 out broadcast_spec)
  | .f16 => pure (evaluate fge .f16 arg0 arg1 out broadcast_spec)
  | .f32 => pure (evaluate fge .f32 arg0 arg1 out broadcast_spec)
  | _ => pure (false, out)

/-- The method `op::v0::GreaterEq::evaluate`: `inputs[0]`, `inputs[1]`, `outputs[0]` and the
node's broadcast rule go to `evaluate_greater_equal`. The C++ indexes the vectors unchecked;
vectors too short are reported as an error here. -/
def GreaterEq_evaluate (fge : Type_t → Int → Int → Bool) (autob : AutoBroadcastSpec)
    (outputs inputs : List HostTensor) : Except String (Bool × HostTensor) :=
  match inputs, outputs with
  | i0 :: i1 :: _, o0 :: _ => evaluate_greater_equal fge i0 i1 o0 autob
  | _, _ => .error "tensor index out of range"

/-- The method `op::v1::GreaterEqual::evaluate`, with the same body. -/
def GreaterEqual_evaluate (fge : Type_t → Int → Int → Bool) (autob : AutoBroadcastSpec)
    (outputs inputs : List HostTensor) : Except String (Bool × HostTensor) :=
  match inputs, outputs with
  | i0 :: i1 :: _, o0 :: _ => evaluate_greater_equal fge i0 i1 o0 autob
  | _, _ => .error "tensor index out of range"

/-- The tensors of scenario A: int32 `[1,5,3]` and `[2,5,1]`. -/
def scenario_A_arg0 : HostTensor := { element_type := .i32, shape := [3], data := [1, 5, 3] }

def scenario_A_arg1 : HostTensor := { element_type := .i32, shape := [3], data := [2, 5, 1] }

/-- An output tensor before evaluation. -/
def fresh_output : HostTensor := { element_type := .undefined, shape := [], data := [] }

/-- A tensor of the given element type holding `[1,5,3]` or `[2,5,1]`. -/
def example_tensor (et : Type_t) (data : List Int) : HostTensor :=
  { element_type := et, shape := [3], data := data }

/-- A stand-in for the floating-point comparison in the examples, which never reach it. -/
def no_float : Type_t → Int → Int → Bool := fun _ _ _ => false

end ngraph

/-! # The sample `hello_nv12_input_classification`

The size parser `parseImageSize` of `samples/hello_nv12_input_classification/main.cpp` and
the buffer arithmetic of its `main`. -/

namespace hello_nv12

/-- The exceptions the sample can raise, by class, each with its message. -/
inductive Exception
  | runtime_error (what : String)
  | invalid_argument (what : String)
  | out_of_range (what : String)
  deriving DecidableEq, Repr

/-- The largest `unsigned long long`, also the largest `size_t` here. -/
def ULLONG_MAX : Nat := 2 ^ 64 - 1

/-- The C library `isspace` in the "C" locale: space, and the controls `\t \n \v \f \r`. -/
def isspace (c : Char) : Bool := c.toNat = 32 || (9 ≤ c.toNat && c.toNat ≤ 13)

/-- The C library `isdigit`: `'0'` to `'9'`. -/
def isdigit (c : Char) : Bool := 48 ≤ c.toNat && c.toNat ≤ 57

/-- The value of a run of decimal digits, most significant first. -/
def digits_value (digits : List Char) : Nat :=
  digits.foldl (fun a c => a * 10 + (c.toNat - 48)) 0

/-- The C++ standard library function `std::stoull(str)` with the default base 10 and no
position output, as `strtoull` defines it: leading white space is skipped, one sign is
accepted, then the longest run of decimal digits is converted and whatever follows it is
ignored. No digit is `std::invalid_argument`; a value above `ULLONG_MAX` is
`std::out_of_range`; after a minus sign the value is negated in the unsigned type. -/
def stoull (str : List Char) : Except Exception Nat :=
  let s1 := str.dropWhile isspace
  let negative : Bool := s1.head? = some '-'
  let s2 := match s1 with
    | c :: r => if c = '-' ∨ c = '+' then r else s1
    | [] => s1
  let digits := s2.takeWhile isdigit
  if digits = [] then .error (.invalid_argument "stoull")
  else if digits_value digits > ULLONG_MAX then .error (.out_of_range "stoull")
  else .ok (if negative then (2 ^ 64 - digits_value digits) % 2 ^ 64 else digits_value digits)

/-- The method `std::string::find` for a one-character pattern: the position of its first
occurrence; `none` stands for `npos`. -/
def find (c : Char) : List Char → Option Nat
  | [] => none
  | a :: s => if a = c then some 0 else (find c s).map (fun p => p + 1)

/-- The method `std::string::substr(pos, n)`: at most `n` characters from position `pos`. -/
def substr (s : List Char) (pos n : Nat) : List Char := (s.drop pos).take n

/-- The error of a string that `parseImageSize` finds not to be of the form WIDTHxHEIGHT. -/
def format_error (size_string : String) : Exception :=
  .runtime_error
    ("Incorrect format of image size parameter, expected WIDTHxHEIGHT, actual: " ++ size_string)

/-- The error of a zero width or height. -/
def zero_error : Exception :=
  .runtime_error
    "Incorrect format of image size parameter, width and height must not be equal to 0"

/-- The error of an odd width or height. -/
def odd_error : Exception :=
  .runtime_error "Unsupported image size, width and height must be even numbers"

/-- The function `parseImageSize`. The string is taken character by character; the
delimiter is ASCII, so positions relate as they do byte by byte. When the delimiter is found
the string is not empty, so `size() - 1` does not wrap. The cast of `unsigned long long` to
`size_t` is the identity. -/
def parseImageSize (size_string : String) : Except Exception (Nat × Nat) :=
  let s := size_string.data
  match find 'x' s with
  | none => .error (format_error size_string)
  | some delimiter_pos =>
    if delimiter_pos ≥ s.length - 1 ∨ delimiter_pos = 0 then
      .error (format_error size_string)
    else
      match stoull (substr s 0 delimiter_pos) with
      | .error e => .error e
      | .ok width =>
        match stoull (substr s (delimiter_pos + 1) s.length) with
        | .error e => .error e
        | .ok height =>
          if width = 0 ∨ height = 0 then .error zero_error
          else if width % 2 ≠ 0 ∨ height % 2 ≠ 0 then .error odd_error
          else .ok (width, height)

/-- The number of bytes `main` reads for the image,
`input_width * (input_height * 3 / 2)` in `size_t` arithmetic. -/
def image_read_size (input_width input_height : Nat) : Nat :=
  (input_width * ((input_height * 3 % 2 ^ 64) / 2)) % 2 ^ 64

/-- The dimensions `{1, 1, input_height, input_width}` of `y_plane_desc`. -/
def y_plane_dims (input_width input_height : Nat) : List Nat :=
  [1, 1, input_height, input_width]

/-- The dimensions `{1, 2, input_height / 2, input_width / 2}` of `uv_plane_desc`. -/
def uv_plane_dims (input_width input_height : Nat) : List Nat :=
  [1, 2, input_height / 2, input_width / 2]

/-- The position `offset = input_width * input_height` at which the UV plane starts. -/
def uv_offset (input_width input_height : Nat) : Nat := (input_width * input_height) % 2 ^ 64

/-- Modelled from the spec: the byte size of a blob of precision U8 with the given
dimensions; a tensor descriptor's "total element count = product of dimensions", and an
element is one byte. -/
def blob_byte_size (dims : List Nat) : Nat := dims.prod

end hello_nv12

namespace ngraph

/-! ## Row-major coordinates -/

theorem flatMap_range_mul (d m : Nat) :
    (List.range d).flatMap (fun c => (List.range m).map (fun j => c * m + j))
      = List.range (d * m) := by
  induction d with
  | zero => simp
  | succ d ih =>
    rw [List.range_succ, List.flatMap_append, ih, Nat.succ_mul, List.range_add]
    simp

theorem map_index_coordinates (s : Shape) :
    (coordinates s).map (index s) = List.range (shape_size s) := by
  induction s with
  | nil => rfl
  | cons d ds ih =>
    have h : ∀ c : Nat, List.map (index (d :: ds)) ((coordinates ds).map (fun cs => c :: cs))
        = (List.range (shape_size ds)).map (fun j => c * shape_size ds + j) := by
      intro c
      rw [← ih, List.map_map, List.map_map]
      rfl
    simp only [coordinates, shape_size, List.map_flatMap, h]
    exact flatMap_range_mul d (shape_size ds)

theorem length_coordinates (s : Shape) : (coordinates s).length = shape_size s := by
  have h := congrArg List.length (map_index_coordinates s)
  simpa using h

theorem index_inj_of_mem {s : Shape} {c1 c2 : Coordinate} (h1 : c1 ∈ coordinates s)
    (h2 : c2 ∈ coordinates s) (h : index s c1 = index s c2) : c1 = c2 := by
  have hn : ((coordinates s).map (index s)).Nodup := by
    rw [map_index_coordinates]; exact List.nodup_range _
  exact List.inj_on_of_nodup_map hn h1 h2 h

theorem index_getElem_coordinates (s : Shape) (i : Nat) (h : i < (coordinates s).length) :
    index s ((coordinates s)[i]) = i := by
  have h1 : ((coordinates s).map (index s))[i]? = (List.range (shape_size s))[i]? := by
    rw [map_index_coordinates]
  rw [List.getElem?_map, List.getElem?_eq_getElem h] at h1
  rw [length_coordinates] at h
  rw [List.getElem?_range h] at h1
  simpa using h1

theorem mem_coordinates_cons {d : Nat} {ds : Shape} {c : Nat} {cs : Coordinate} :
    (c :: cs) ∈ coordinates (d :: ds) ↔ c < d ∧ cs ∈ coordinates ds := by
  simp [coordinates, List.mem_flatMap]

theorem mem_coordinates_nil {c : Coordinate} : c ∈ coordinates [] ↔ c = [] := by
  simp [coordinates]

theorem exists_cons_of_mem_coordinates {d : Nat} {ds : Shape} {c : Coordinate}
    (h : c ∈ coordinates (d :: ds)) : ∃ x xs, c = x :: xs ∧ x < d ∧ xs ∈ coordinates ds := by
  simp only [coordinates, List.mem_flatMap, List.mem_range, List.mem_map] at h
  obtain ⟨x, hx, xs, hxs, rfl⟩ := h
  exact ⟨x, xs, rfl, hx, hxs⟩

theorem reduce_from_mem_coordinates (axes : AxisSet) (keep : Bool) :
    ∀ (s : Shape) (c : Coordinate) (i : Nat), c ∈ coordinates s →
      reduce_from 0 axes keep i c ∈ coordinates (reduce_from 1 axes keep i s) := by
  intro s
  induction s with
  | nil =>
    intro c i h
    rw [mem_coordinates_nil] at h
    subst h
    simp [reduce_from, coordinates]
  | cons d ds ih =>
    intro c i h
    obtain ⟨x, xs, rfl, hx, hxs⟩ := exists_cons_of_mem_coordinates h
    have hr := ih xs (i + 1) hxs
    by_cases hi : i ∈ axes
    · cases keep
      · simpa [reduce_from, hi] using hr
      · simp only [reduce_from, hi, if_true]
        exact mem_coordinates_cons.mpr ⟨Nat.one_pos, hr⟩
    · simp only [reduce_from, hi, if_false]
      exact mem_coordinates_cons.mpr ⟨hx, hr⟩

theorem reduce_coordinate_mem {s : Shape} {c : Coordinate} (axes : AxisSet) (keep : Bool)
    (h : c ∈ coordinates s) :
    reduce_coordinate c axes keep ∈ coordinates (reduce s axes keep) :=
  reduce_from_mem_coordinates axes keep s c 0 h

/-! ## The accumulation loops of the reduction kernels -/

theorem truthy_of_bool (b : Bool) : truthy (of_bool b) = b := by
  cases b <;> rfl

theorem all_map_eq {α β : Type} (g : α → β) (p : β → Bool) (l : List α) :
    (l.map g).all p = l.all (fun x => p (g x)) := by
  induction l with
  | nil => rfl
  | cons x l ih => simp [List.all_cons, ih]

theorem any_map_eq {α β : Type} (g : α → β) (p : β → Bool) (l : List α) :
    (l.map g).any p = l.any (fun x => p (g x)) := by
  induction l with
  | nil => rfl
  | cons x l ih => simp [List.any_cons, ih]

theorem getD_set_eq {l : List Int} {j : Nat} (a : Int) (h : j < l.length) :
    (l.set j a).getD j 0 = a := by
  simp [List.getD_eq_getElem?_getD, List.getElem?_set, h]

theorem getD_set_ne {l : List Int} {j k : Nat} (a : Int) (h : k ≠ j) :
    (l.set k a).getD j 0 = l.getD j 0 := by
  simp [List.getD_eq_getElem?_getD, List.getElem?_set, h]

theorem length_foldl_set {α : Type} (k : α → Nat) (w : List Int → α → Int) (l : List α) :
    ∀ o : List Int, (l.foldl (fun o x => o.set (k x) (w o x)) o).length = o.length := by
  induction l with
  | nil => intro o; rfl
  | cons x l ih => intro o; simp [List.foldl_cons, ih]

theorem getD_foldl_set_const {α : Type} (k : α → Nat) (a : Int) (l : List α) :
    ∀ (o : List Int) (j : Nat), j < o.length → j ∈ l.map k →
      (l.foldl (fun o x => o.set (k x) a) o).getD j 0 = a := by
  induction l with
  | nil => intro o j _ hj; simp at hj
  | cons x l ih =>
    intro o j hlt hj
    rw [List.foldl_cons]
    by_cases hm : j ∈ l.map k
    · exact ih _ j (by simpa using hlt) hm
    · have hx : k x = j := by
        simp only [List.map_cons, List.mem_cons] at hj
        rcases hj with h | h
        · exact h.symm
        · exact absurd h hm
      have hkeep : ∀ (l2 : List α) (o2 : List Int), j ∉ l2.map k →
          (l2.foldl (fun o x => o.set (k x) a) o2).getD j 0 = o2.getD j 0 := by
        intro l2
        induction l2 with
        | nil => intro o2 _; rfl
        | cons y l2 ih2 =>
          intro o2 hn
          simp only [List.map_cons, List.mem_cons, not_or] at hn
          rw [List.foldl_cons, ih2 _ hn.2, getD_set_ne a (Ne.symm hn.1)]
      rw [hkeep l _ hm, hx, getD_set_eq a hlt]

theorem getD_foldl_and {α : Type} (k : α → Nat) (v : α → Bool) (l : List α) :
    ∀ (o : List Int) (j : Nat) (b : Bool), j < o.length → o.getD j 0 = of_bool b →
      (l.foldl (fun o x => o.set (k x) (of_bool (truthy (o.getD (k x) 0) && v x))) o).getD j 0
        = of_bool (b && (l.filter (fun x => k x = j)).all v) := by
  induction l with
  | nil => intro o j b _ hb; simpa using hb
  | cons x l ih =>
    intro o j b hlt hb
    rw [List.foldl_cons]
    by_cases hx : k x = j
    · rw [ih _ j (b && v x) (by simpa using hlt)
        (by rw [hx, getD_set_eq _ hlt, hb, truthy_of_bool])]
      simp [List.filter_cons, hx, Bool.and_assoc]
    · rw [ih _ j b (by simpa using hlt) (by rw [getD_set_ne _ hx, hb])]
      simp [List.filter_cons, hx]

theorem getD_foldl_or {α : Type} (k : α → Nat) (v : α → Bool) (l : List α) :
    ∀ (o : List Int) (j : Nat) (b : Bool), j < o.length → o.getD j 0 = of_bool b →
      (l.foldl (fun o x => o.set (k x) (of_bool (truthy (o.getD (k x) 0) || v x))) o).getD j 0
        = of_bool (b || (l.filter (fun x => k x = j)).any v) := by
  induction l with
  | nil => intro o j b _ hb; simpa using hb
  | cons x l ih =>
    intro o j b hlt hb
    rw [List.foldl_cons]
    by_cases hx : k x = j
    · rw [ih _ j (b || v x) (by simpa using hlt)
        (by rw [hx, getD_set_eq _ hlt, hb, truthy_of_bool])]
      simp [List.filter_cons, hx, Bool.or_assoc]
    · rw [ih _ j b (by simpa using hlt) (by rw [getD_set_ne _ hx, hb])]
      simp [List.filter_cons, hx]

/-- The slice of an output position, selected by linear index instead of by coordinate. -/
theorem filter_index_eq (s : Shape) (axes : AxisSet) (keep : Bool) (i : Nat)
    (h : i < (coordinates (reduce s axes keep)).length) :
    (coordinates s).filter
        (fun ic => index (reduce s axes keep) (reduce_coordinate ic axes keep) = i)
      = (coordinates s).filter
        (fun ic => reduce_coordinate ic axes keep = (coordinates (reduce s axes keep))[i]) := by
  apply List.filter_congr
  intro ic hic
  have hmem := reduce_coordinate_mem axes keep hic
  have hoc : (coordinates (reduce s axes keep))[i] ∈ coordinates (reduce s axes keep) :=
    List.getElem_mem h
  have hidx := index_getElem_coordinates (reduce s axes keep) i h
  by_cases he : reduce_coordinate ic axes keep = (coordinates (reduce s axes keep))[i]
  · simp [he, hidx]
  · have hne : index (reduce s axes keep) (reduce_coordinate ic axes keep) ≠ i := by
      intro hc
      exact he (index_inj_of_mem hmem hoc (hc.trans hidx.symm))
    simp [he, hne]

theorem reduce_logical_and_eq_spec (arg out : List Int) (s : Shape) (axes : AxisSet)
    (keep : Bool) (hlen : out.length = shape_size (reduce s axes keep)) :
    reduce_logical_and arg out s axes keep = reduce_logical_and_spec arg s axes keep := by
  have hcl := length_coordinates (reduce s axes keep)
  apply List.ext_getElem
  · simp only [reduce_logical_and, reduce_logical_and_spec, List.length_map]
    rw [length_foldl_set, length_foldl_set, hlen, hcl]
  · intro i h1 h2
    have hi : i < (coordinates (reduce s axes keep)).length := by
      simpa [reduce_logical_and_spec] using h2
    have hio : i < out.length := by rw [hlen, ← hcl]; exact hi
    have hinit : ((coordinates (reduce s axes keep)).foldl
        (fun o oc => o.set (index (reduce s axes keep) oc) 1) out).getD i 0 = of_bool true := by
      apply getD_foldl_set_const (index (reduce s axes keep)) 1 _ out i hio
      rw [map_index_coordinates, List.mem_range, ← hcl]; exact hi
    have hmain := getD_foldl_and
      (fun ic => index (reduce s axes keep) (reduce_coordinate ic axes keep))
      (fun ic => truthy (arg.getD (index s ic) 0)) (coordinates s) _ i true
      (by rw [length_foldl_set]; exact hio) hinit
    have hL : (reduce_logical_and arg out s axes keep)[i]
        = (reduce_logical_and arg out s axes keep).getD i 0 := by
      rw [List.getD_eq_getElem?_getD, List.getElem?_eq_getElem h1]; rfl
    rw [hL]
    simp only [reduce_logical_and]
    rw [hmain, filter_index_eq s axes keep i hi]
    simp only [reduce_logical_and_spec, slice_of, List.getElem_map, Bool.true_and]
    rw [all_map_eq]

theorem reduce_logical_or_eq_spec (arg out : List Int) (s : Shape) (axes : AxisSet)
    (keep : Bool) (hlen : out.length = shape_size (reduce s axes keep)) :
    reduce_logical_or arg out s axes keep = reduce_logical_or_spec arg s axes keep := by
  have hcl := length_coordinates (reduce s axes keep)
  apply List.ext_getElem
  · simp only [reduce_logical_or, reduce_logical_or_spec, List.length_map]
    rw [length_foldl_set, length_foldl_set, hlen, hcl]
  · intro i h1 h2
    have hi : i < (coordinates (reduce s axes keep)).length := by
      simpa [reduce_logical_or_spec] using h2
    have hio : i < out.length := by rw [hlen, ← hcl]; exact hi
    have hinit : ((coordinates (reduce s axes keep)).foldl
        (fun o oc => o.set (index (reduce s axes keep) oc) 0) out).getD i 0 = of_bool false := by
      apply getD_foldl_set_const (index (reduce s axes keep)) 0 _ out i hio
      rw [map_index_coordinates, List.mem_range, ← hcl]; exact hi
    have hmain := getD_foldl_or
      (fun ic => index (reduce s axes keep) (reduce_coordinate ic axes keep))
      (fun ic => truthy (arg.getD (index s ic) 0)) (coordinates s) _ i false
      (by rw [length_foldl_set]; exact hio) hinit
    have hL : (reduce_logical_or arg out s axes keep)[i]
        = (reduce_logical_or arg out s axes keep).getD i 0 := by
      rw [List.getD_eq_getElem?_getD, List.getElem?_eq_getElem h1]; rfl
    rw [hL]
    simp only [reduce_logical_or]
    rw [hmain, filter_index_eq s axes keep i hi]
    simp only [reduce_logical_or_spec, slice_of, List.getElem_map, Bool.false_or]
    rw [any_map_eq]

/-! ## Folding a logical reduction -/

theorem PShape_to_shape_static (sh : Shape) : PShape_to_shape (sh.map some) = .ok sh := by
  have h1 : PShape_is_static (sh.map some) = true := by
    simp [PShape_is_static, List.all_eq_true]
  have h2 : (sh.map some).map (fun d => d.getD 0) = sh := by
    rw [List.map_map]
    exact (List.map_congr_left (fun a _ => rfl)).trans (List.map_id sh)
  simp [PShape_to_shape, h1, h2]

theorem is_validated_iff (g : Graph) (n : Node) (h : is_validated g n = true) :
    ∃ s, get_input_shape g n 0 = .ok s ∧
      n.pshape = (reduce s (get_reduction_axes g n) n.keep_dims).map some ∧
      n.element_type = (g.node (n.inputs.getD 0 0)).element_type ∧
      infer_reduction g n
        = .ok (n.element_type, reduce s (get_reduction_axes g n) n.keep_dims) := by
  unfold is_validated at h
  cases hs : get_input_shape g n 0 with
  | error e => simp [infer_reduction, hs, bind, Except.bind] at h
  | ok s =>
    have hi : infer_reduction g n = .ok ((g.node (n.inputs.getD 0 0)).element_type,
        reduce s (get_reduction_axes g n) n.keep_dims) := by
      simp [infer_reduction, hs, bind, Except.bind, pure, Except.pure]
    rw [hi] at h
    simp only [Bool.and_eq_true, decide_eq_true_eq] at h
    refine ⟨s, rfl, h.2, h.1, ?_⟩
    rw [hi, h.1]

/-- What `fold_constant_logical_reduction` returns on a validated node of static input shape:
the constant built from the buffer the kernel of the node's kind has filled. -/
theorem fold_eq (g : Graph) (constant n : Node) (s : Shape)
    (hs : get_input_shape g n 0 = .ok s)
    (hp : n.pshape = (reduce s (get_reduction_axes g n) n.keep_dims).map some) :
    fold_constant_logical_reduction g constant n =
      if n.type_info = .ReduceLogicalAnd then
        .ok (make_constant ("Constant_" ++ toString g.nodes.length) n.element_type
          (reduce s (get_reduction_axes g n) n.keep_dims)
          (reduce_logical_and_spec constant.data s (get_reduction_axes g n) n.keep_dims))
      else if n.type_info = .ReduceLogicalOr then
        .ok (make_constant ("Constant_" ++ toString g.nodes.length) n.element_type
          (reduce s (get_reduction_axes g n) n.keep_dims)
          (reduce_logical_or_spec constant.data s (get_reduction_axes g n) n.keep_dims))
      else .error internal_error := by
  have hsh : n.get_shape = .ok (reduce s (get_reduction_axes g n) n.keep_dims) := by
    rw [Node.get_shape, hp, PShape_to_shape_static]
  have hlen : (List.replicate
      (shape_size (reduce s (get_reduction_axes g n) n.keep_dims) * 1) (0 : Int)).length
      = shape_size (reduce s (get_reduction_axes g n) n.keep_dims) := by simp
  unfold fold_constant_logical_reduction
  rw [hsh, hs]
  by_cases h1 : n.type_info = .ReduceLogicalAnd
  · simp only [h1, if_true, bind, Except.bind, pure, Except.pure, Node.get_keep_dims,
      Node.get_output_element_type]
    rw [reduce_logical_and_eq_spec _ _ _ _ _ hlen]
  · by_cases h2 : n.type_info = .ReduceLogicalOr
    · simp only [h2, if_true, bind, Except.bind, pure, Except.pure, Node.get_keep_dims,
        Node.get_output_element_type]
      rw [reduce_logical_or_eq_spec _ _ _ _ _ hlen]
      simp
    · simp [h1, h2, bind, Except.bind, throw, throwThe, MonadExceptOf.throw]

theorem length_reduce_logical_and_spec (arg : List Int) (s : Shape) (axes : AxisSet)
    (keep : Bool) :
    (reduce_logical_and_spec arg s axes keep).length = shape_size (reduce s axes keep) := by
  simp [reduce_logical_and_spec, length_coordinates]

theorem length_reduce_logical_or_spec (arg : List Int) (s : Shape) (axes : AxisSet)
    (keep : Bool) :
    (reduce_logical_or_spec arg s axes keep).length = shape_size (reduce s axes keep) := by
  simp [reduce_logical_or_spec, length_coordinates]

theorem length_reduce_from_keep (fill : Nat) (axes : AxisSet) :
    ∀ (s : List Nat) (i : Nat), (reduce_from fill axes true i s).length = s.length := by
  intro s
  induction s with
  | nil => intro i; rfl
  | cons d ds ih =>
    intro i
    by_cases hi : i ∈ axes <;> simp [reduce_from, hi, ih]

theorem length_reduce_from_drop (fill : Nat) (axes : AxisSet) :
    ∀ (s : List Nat) (i : Nat),
      (reduce_from fill axes false i s).length
        + ((List.range' i s.length).filter (fun a => decide (a ∈ axes))).length = s.length := by
  intro s
  induction s with
  | nil => intro i; rfl
  | cons d ds ih =>
    intro i
    have h := ih (i + 1)
    by_cases hi : i ∈ axes
    · simp only [reduce_from, hi, if_true, List.length_cons, List.range'_succ,
        List.filter_cons, decide_True]
      simp only [Bool.false_eq_true, if_false, List.length_cons]
      omega
    · simp only [reduce_from, hi, if_false, List.length_cons, List.range'_succ,
        List.filter_cons, decide_False]
      simp only [Bool.false_eq_true, if_false]
      omega

theorem length_filter_axes (axes : AxisSet) (r : Nat) (h : ∀ a ∈ axes, a < r) :
    ((List.range' 0 r).filter (fun a => decide (a ∈ axes))).length = axes.dedup.length := by
  apply List.Perm.length_eq
  rw [List.perm_ext_iff_of_nodup]
  · intro a
    simp only [List.mem_filter, List.mem_range', List.mem_dedup, decide_eq_true_eq]
    constructor
    · intro h1; exact h1.2
    · intro h1; exact ⟨⟨a, by have := h a h1; omega⟩, h1⟩
  · exact (List.nodup_range' 0 r).filter _
  · exact List.nodup_dedup axes

/-- The rank law of the output shape of a reduction. -/
theorem length_reduce (s : Shape) (axes : AxisSet) (keep : Bool)
    (h : ∀ a ∈ axes, a < s.length) :
    (reduce s axes keep).length
      = if keep = true then s.length else s.length - axes.dedup.length := by
  cases keep
  · have h1 := length_reduce_from_drop 1 axes s 0
    rw [length_filter_axes axes s.length h] at h1
    simp only [reduce, Bool.false_eq_true, if_false]
    omega
  · simp [reduce, length_reduce_from_keep]

theorem shape_size_eq_zero_of_mem : ∀ (s : Shape), 0 ∈ s → shape_size s = 0 := by
  intro s
  induction s with
  | nil => intro h; simp at h
  | cons d ds ih =>
    intro h
    simp only [List.mem_cons] at h
    rcases h with h | h
    · simp [shape_size, ← h]
    · simp [shape_size, ih h]

theorem coordinates_eq_nil_of_mem (s : Shape) (h : 0 ∈ s) : coordinates s = [] := by
  apply List.eq_nil_of_length_eq_zero
  rw [length_coordinates, shape_size_eq_zero_of_mem s h]

/-- C2: on a validated logical reduction whose data input is a constant of static shape,
`fold_constant_logical_reduction` returns a constant whose buffer is, element for element,
what evaluating the reduction gives: each output position holds the AND (for
ReduceLogicalAnd) or the OR (for ReduceLogicalOr) of all input elements that map to it along
the reduced axes, for every set of reduction axes and either `keep_dims`. -/
theorem fold_constant_logical_reduction_sound (g : Graph) (constant n : Node) (cid : Nat)
    (input_shape : Shape)
    (hkind : is_supported_reduction n = true)
    (hin : n.inputs.get? 0 = some cid) (hc : g.node cid = constant)
    (hs : constant.get_shape = .ok input_shape)
    (hv : is_validated g n = true) :
    ∃ c, fold_constant_logical_reduction g constant n = .ok c ∧
      c.type_info = .Constant ∧
      c.data.length = shape_size (reduce input_shape (get_reduction_axes g n) n.keep_dims) ∧
      c.data =
        if n.type_info = .ReduceLogicalAnd then
          reduce_logical_and_spec constant.data input_shape (get_reduction_axes g n) n.keep_dims
        else
          reduce_logical_or_spec constant.data input_shape (get_reduction_axes g n)
            n.keep_dims := by
  obtain ⟨s, hs1, hp, _, _⟩ := is_validated_iff g n hv
  have hss : s = input_shape := by
    have h1 : get_input_shape g n 0 = constant.get_shape := by
      simp only [get_input_shape, hin, hc]
    rw [hs1, hs] at h1
    exact Except.ok.inj h1
  subst hss
  rw [fold_eq g constant n s hs1 hp]
  simp only [is_supported_reduction, has_class, Bool.or_eq_true, decide_eq_true_eq] at hkind
  by_cases h1 : n.type_info = .ReduceLogicalAnd
  · refine ⟨_, by rw [if_pos h1], rfl, ?_, ?_⟩
    · simp [make_constant, length_reduce_logical_and_spec]
    · simp [make_constant, h1, List.take_of_length_le, length_reduce_logical_and_spec]
  · have h2 : n.type_info = .ReduceLogicalOr := hkind.resolve_left h1
    refine ⟨_, by rw [if_neg h1, if_pos h2], rfl, ?_, ?_⟩
    · simp [make_constant, length_reduce_logical_or_spec]
    · simp [make_constant, h1, List.take_of_length_le, length_reduce_logical_or_spec]

/-- Scenario B: the 2x3 all-true constant reduced along axis 1 without keep-dims folds to
`[true, true]`. -/
theorem fold_constant_logical_reduction_sound_witness :
    ∃ c, fold_constant_logical_reduction scenario_B (scenario_B.node 0) (scenario_B.node 2)
        = .ok c ∧ c.type_info = .Constant ∧ c.data.length = 2 ∧ c.data = [1, 1] := by
  obtain ⟨c, h1, h2, h3, h4⟩ := fold_constant_logical_reduction_sound scenario_B
    (scenario_B.node 0) (scenario_B.node 2) 0 [2, 3] (by decide) (by decide) rfl rfl
    (by decide)
  exact ⟨c, h1, h2, h3, h4⟩

/-- C3: when a reduction axis of the input shape has size zero, every output position
reduces over an empty slice: folding succeeds and every position of the folded constant holds
the identity, `true` (1) for ReduceLogicalAnd and `false` (0) for ReduceLogicalOr. -/
theorem fold_zero_sized_axis_identity (g : Graph) (constant n : Node) (cid : Nat)
    (input_shape : Shape) (a : Nat)
    (hkind : is_supported_reduction n = true)
    (hin : n.inputs.get? 0 = some cid) (hc : g.node cid = constant)
    (hs : constant.get_shape = .ok input_shape)
    (hv : is_validated g n = true)
    (_ha : a ∈ get_reduction_axes g n) (hz : input_shape.get? a = some 0) :
    ∃ c, fold_constant_logical_reduction g constant n = .ok c ∧
      c.data = List.replicate
        (shape_size (reduce input_shape (get_reduction_axes g n) n.keep_dims))
        (if n.type_info = .ReduceLogicalAnd then 1 else 0) := by
  obtain ⟨s, hs1, hp, _, _⟩ := is_validated_iff g n hv
  have hss : s = input_shape := by
    have h1 : get_input_shape g n 0 = constant.get_shape := by
      simp only [get_input_shape, hin, hc]
    rw [hs1, hs] at h1
    exact Except.ok.inj h1
  subst hss
  have h0 : (0 : Nat) ∈ s := List.get?_mem hz
  have hnil : coordinates s = [] := coordinates_eq_nil_of_mem s h0
  rw [fold_eq g constant n s hs1 hp]
  simp only [is_supported_reduction, has_class, Bool.or_eq_true, decide_eq_true_eq] at hkind
  by_cases h1 : n.type_info = .ReduceLogicalAnd
  · refine ⟨_, by rw [if_pos h1], ?_⟩
    have hd : reduce_logical_and_spec constant.data s (get_reduction_axes g n) n.keep_dims
        = List.replicate (shape_size (reduce s (get_reduction_axes g n) n.keep_dims)) 1 := by
      rw [← length_coordinates, List.eq_replicate_iff]
      simp [reduce_logical_and_spec, slice_of, hnil, of_bool]
    simp [make_constant, h1, hd]
  · have h2 : n.type_info = .ReduceLogicalOr := hkind.resolve_left h1
    refine ⟨_, by rw [if_neg h1, if_pos h2], ?_⟩
    have hd : reduce_logical_or_spec constant.data s (get_reduction_axes g n) n.keep_dims
        = List.replicate (shape_size (reduce s (get_reduction_axes g n) n.keep_dims)) 0 := by
      rw [← length_coordinates, List.eq_replicate_iff]
      simp [reduce_logical_or_spec, slice_of, hnil, of_bool]
    simp [make_constant, h1, hd]

/-- Scenario C: reduce-logical-or over the zero-sized axis of a 2x0 constant folds to
`[false, false]`. -/
theorem fold_zero_sized_axis_identity_witness :
    ∃ c, fold_constant_logical_reduction scenario_C (scenario_C.node 0) (scenario_C.node 2)
        = .ok c ∧ c.data = [0, 0] := by
  obtain ⟨c, h1, h2⟩ := fold_zero_sized_axis_identity scenario_C
    (scenario_C.node 0) (scenario_C.node 2) 0 [2, 0] 1 (by decide) (by decide) rfl rfl
    (by decide) (by decide) (by decide)
  exact ⟨c, h1, h2⟩

/-! ## Reading nodes of a modified arena -/

theorem node_of_ge (g : Graph) (i : Nat) (h : g.nodes.length ≤ i) : g.node i = default := by
  simp [Graph.node, List.getD_eq_getElem?_getD, List.getElem?_eq_none h]

theorem node_set_node (g : Graph) (j i : Nat) (n : Node) :
    (g.set_node j n).node i = if i = j ∧ j < g.nodes.length then n else g.node i := by
  simp only [Graph.set_node, Graph.node, List.getD_eq_getElem?_getD, List.getElem?_set]
  by_cases h1 : j = i
  · subst h1
    by_cases h2 : j < g.nodes.length
    · simp [h2]
    · simp [h2, List.getElem?_eq_none (Nat.le_of_not_lt h2)]
  · have h3 : ¬ (i = j) := fun h => h1 h.symm
    simp [h1, h3]

/-! ## The callback -/

/-- Line 92, `NGRAPH_CHECK(revalidate_and_ensure_static(reduction_match))`: were the
staticity check to return false on a node that is not fold-disabled, the callback would raise
the check failure; nothing is folded or replaced then: the graph it leaves has the nodes it
had, each with the inputs, kind and names it had. -/
theorem callback_check_failure (env : Env) (g : Graph) (m : Matcher)
    (hen : env.cf_is_disabled (g.node m.get_match_root) = false)
    (hdyn : (revalidate_and_ensure_static env g m.get_match_root).2 = false) :
    (constant_logical_reduction_callback env g m).2 = .error check_failure ∧
    (constant_logical_reduction_callback env g m).1.nodes.length = g.nodes.length ∧
    (∀ i, ((constant_logical_reduction_callback env g m).1.node i).inputs = (g.node i).inputs ∧
      ((constant_logical_reduction_callback env g m).1.node i).type_info
        = (g.node i).type_info ∧
      ((constant_logical_reduction_callback env g m).1.node i).friendly_name
        = (g.node i).friendly_name ∧
      ((constant_logical_reduction_callback env g m).1.node i).name = (g.node i).name) := by
  have hcb : constant_logical_reduction_callback env g m
      = ((revalidate_and_ensure_static env g m.get_match_root).1, .error check_failure) := by
    simp only [constant_logical_reduction_callback, hen, hdyn, if_true, Bool.false_eq_true,
      if_false]
  refine ⟨by rw [hcb], ?_, ?_⟩
  · rw [hcb]
    simp [revalidate_and_ensure_static, Graph.set_node]
  · intro i
    rw [hcb]
    simp only [revalidate_and_ensure_static]
    rw [node_set_node]
    split <;> rename_i h
    · obtain ⟨h1, _⟩ := h
      subst h1
      exact ⟨rfl, rfl, rfl, rfl⟩
    · exact ⟨rfl, rfl, rfl, rfl⟩

/-- C8: on a matched node that is flagged fold-disabled the callback returns false and does
nothing else: the graph it leaves is the graph it was given, so no constant is built, no node
is replaced, and every name and every consumer is as before. -/
theorem callback_skips_disabled (env : Env) (g : Graph) (m : Matcher)
    (h : env.cf_is_disabled (g.node m.get_match_root) = true) :
    constant_logical_reduction_callback env g m = (g, .ok false) := by
  simp only [constant_logical_reduction_callback, h, if_true]

/-- The fold-disabled reduction of the example graph is matched and left alone. -/
theorem callback_skips_disabled_witness :
    Matcher_match scenario_disabled reduction 2 = some example_match ∧
    constant_logical_reduction_callback example_env scenario_disabled example_match
      = (scenario_disabled, .ok false) :=
  ⟨by decide, callback_skips_disabled example_env scenario_disabled example_match (by decide)⟩

theorem node_map_nodes (g : Graph) (f : Node → Node) (i : Nat) :
    ({ g with nodes := g.nodes.map f } : Graph).node i
      = if i < g.nodes.length then f (g.node i) else default := by
  by_cases h : i < g.nodes.length
  · simp [Graph.node, List.getD_eq_getElem?_getD, List.getElem?_map,
      List.getElem?_eq_getElem h, h]
  · simp [Graph.node, List.getD_eq_getElem?_getD, List.getElem?_map,
      List.getElem?_eq_none (Nat.le_of_not_lt h), h]

theorem node_add_node (g : Graph) (n : Node) (i : Nat) :
    (g.add_node n).1.node i
      = if i < g.nodes.length then g.node i else if i = g.nodes.length then n else default := by
  by_cases h : i < g.nodes.length
  · simp [Graph.add_node, Graph.node, List.getD_eq_getElem?_getD, List.getElem?_append_left h, h]
  · by_cases h2 : i = g.nodes.length
    · subst h2
      simp [Graph.add_node, Graph.node, List.getD_eq_getElem?_getD]
    · have h3 : g.nodes.length + 1 ≤ i := by omega
      have h4 : (g.nodes ++ [n])[i]? = none :=
        List.getElem?_eq_none (by simpa using h3)
      simp [Graph.add_node, Graph.node, List.getD_eq_getElem?_getD, h, h2, h4]

theorem length_replace_node (g : Graph) (t r : Nat) :
    (replace_node g t r).nodes.length = g.nodes.length := by
  simp [replace_node]

theorem length_copy_runtime_info (env : Env) (g : Graph) (t r : Nat) :
    (copy_runtime_info_to_target_inputs env g t r).nodes.length = g.nodes.length := by
  simp [copy_runtime_info_to_target_inputs]

theorem length_revalidate (env : Env) (g : Graph) (id : Nat) :
    (revalidate_and_ensure_static env g id).1.nodes.length = g.nodes.length := by
  simp [revalidate_and_ensure_static, Graph.set_node]

/-- The node stored at an index after `revalidate_and_ensure_static`: only the output
descriptor of the revalidated node can differ. -/
theorem node_revalidate (env : Env) (g : Graph) (id i : Nat) :
    ((revalidate_and_ensure_static env g id).1.node i).inputs = (g.node i).inputs ∧
    ((revalidate_and_ensure_static env g id).1.node i).type_info = (g.node i).type_info ∧
    ((revalidate_and_ensure_static env g id).1.node i).name = (g.node i).name ∧
    ((revalidate_and_ensure_static env g id).1.node i).friendly_name
      = (g.node i).friendly_name ∧
    ((revalidate_and_ensure_static env g id).1.node i).rt_info = (g.node i).rt_info ∧
    ((revalidate_and_ensure_static env g id).1.node i).keep_dims = (g.node i).keep_dims ∧
    ((revalidate_and_ensure_static env g id).1.node i).data = (g.node i).data ∧
    (i ≠ id → (revalidate_and_ensure_static env g id).1.node i = g.node i) := by
  simp only [revalidate_and_ensure_static]
  rw [node_set_node]
  split <;> rename_i h
  · obtain ⟨h1, _⟩ := h
    subst h1
    exact ⟨rfl, rfl, rfl, rfl, rfl, rfl, rfl, fun hne => absurd rfl hne⟩
  · exact ⟨rfl, rfl, rfl, rfl, rfl, rfl, rfl, fun _ => rfl⟩

/-- A successful fold builds a constant without inputs, named and typed as the fold says. -/
theorem fold_ok_constant (g : Graph) (constant n c : Node)
    (h : fold_constant_logical_reduction g constant n = .ok c) :
    c.type_info = .Constant ∧ c.inputs = [] ∧ is_supported_reduction n = true := by
  unfold fold_constant_logical_reduction at h
  cases hsh : n.get_shape with
  | error e => simp [hsh, bind, Except.bind] at h
  | ok sh =>
    by_cases h1 : n.type_info = .ReduceLogicalAnd
    · cases hin : get_input_shape g n 0 with
      | error e => simp [hsh, hin, h1, bind, Except.bind] at h
      | ok s =>
        simp only [hsh, hin, h1, if_true, bind, Except.bind, pure, Except.pure] at h
        have hc := Except.ok.inj h
        subst hc
        simp [make_constant, is_supported_reduction, has_class, h1]
    · by_cases h2 : n.type_info = .ReduceLogicalOr
      · cases hin : get_input_shape g n 0 with
        | error e => simp [hsh, hin, h1, h2, bind, Except.bind] at h
        | ok s =>
          simp only [hsh, hin, h1, h2, if_true, if_false, bind, Except.bind, pure,
            Except.pure] at h
          have hc := Except.ok.inj h
          subst hc
          simp [make_constant, is_supported_reduction, has_class, h2]
      · simp [hsh, h1, h2, bind, Except.bind, throw, throwThe, MonadExceptOf.throw] at h

theorem not_supported_default : is_supported_reduction (default : Node) = false := by
  decide

/-- The three ways the callback can end. -/
theorem callback_cases (env : Env) (g : Graph) (m : Matcher) :
    (env.cf_is_disabled (g.node m.get_match_root) = true ∧
      constant_logical_reduction_callback env g m = (g, .ok false)) ∨
    (∃ e, constant_logical_reduction_callback env g m
        = ((revalidate_and_ensure_static env g m.get_match_root).1, .error e)) ∨
    (∃ c, fold_constant_logical_reduction (revalidate_and_ensure_static env g m.get_match_root).1
          ((revalidate_and_ensure_static env g m.get_match_root).1.node
            ((m.get_pattern_map.lookup constant_data_label_id).getD 0))
          ((revalidate_and_ensure_static env g m.get_match_root).1.node m.get_match_root)
          = .ok c ∧
      constant_logical_reduction_callback env g m
        = (copy_runtime_info_to_target_inputs env
            (replace_node
              ((revalidate_and_ensure_static env g m.get_match_root).1.add_node
                (c.set_friendly_name ((revalidate_and_ensure_static env g
                  m.get_match_root).1.node m.get_match_root).get_friendly_name)).1
              m.get_match_root g.nodes.length)
            m.get_match_root g.nodes.length, .ok true)) := by
  by_cases hd : env.cf_is_disabled (g.node m.get_match_root) = true
  · left
    exact ⟨hd, by simp only [constant_logical_reduction_callback, hd, if_true]⟩
  · right
    have hd1 : env.cf_is_disabled (g.node m.get_match_root) = false := by simpa using hd
    by_cases hr : (revalidate_and_ensure_static env g m.get_match_root).2 = false
    · left
      exact ⟨check_failure, by simp [constant_logical_reduction_callback, hd1, hr]⟩
    · have hr1 : (revalidate_and_ensure_static env g m.get_match_root).2 = true := by
        simpa using hr
      cases hf : fold_constant_logical_reduction
          (revalidate_and_ensure_static env g m.get_match_root).1
          ((revalidate_and_ensure_static env g m.get_match_root).1.node
            ((m.get_pattern_map.lookup constant_data_label_id).getD 0))
          ((revalidate_and_ensure_static env g m.get_match_root).1.node m.get_match_root) with
      | error e =>
        left
        exact ⟨e, by simp [constant_logical_reduction_callback, hd1, hr1, hf]⟩
      | ok c =>
        right
        refine ⟨c, rfl, ?_⟩
        simp [constant_logical_reduction_callback, hd1, hr1, hf, Graph.add_node,
          length_revalidate]

/-! ## The pattern -/

/-- The pattern `reduction` at a candidate root, computed: it matches exactly the supported
reductions with two inputs that are both constants, and binds the two labels to them. -/
theorem Matcher_match_reduction (g : Graph) (n : Nat) :
    Matcher_match g reduction n =
      if is_supported_reduction (g.node n) = true then
        match (g.node n).inputs with
        | [d, a] =>
          if (g.node d).type_info = .Constant ∧ (g.node a).type_info = .Constant then
            some { match_root := n,
                   pattern_map := [(constant_axes_label_id, a), (constant_data_label_id, d)] }
          else none
        | _ => none
      else none := by
  unfold Matcher_match reduction
  rw [match_value]
  by_cases hr : is_supported_reduction (g.node n) = true
  · rw [if_pos hr, if_pos hr]
    rcases hin : (g.node n).inputs with _ | ⟨d, _ | ⟨a, _ | ⟨b, rest⟩⟩⟩
    · simp [match_arguments]
    · simp only [match_arguments, constant_data_label, constant_axes_label]
      split <;> rfl
    · by_cases hd : (g.node d).type_info = .Constant
      · by_cases ha : (g.node a).type_info = .Constant
        · simp [match_arguments, constant_data_label, constant_axes_label, match_value,
            has_class, hd, ha, constant_data_label_id, constant_axes_label_id, List.lookup]
        · simp [match_arguments, constant_data_label, constant_axes_label, match_value,
            has_class, hd, ha, constant_data_label_id, constant_axes_label_id, List.lookup]
      · simp [match_arguments, constant_data_label, constant_axes_label, match_value,
          has_class, hd]
    · simp only [match_arguments, constant_data_label, constant_axes_label]
      cases h1 : match_value g (Pattern.Label constant_data_label_id (has_class .Constant)) d []
        with
      | none => simp
      | some m1 =>
        cases h2 : match_value g (Pattern.Label constant_axes_label_id (has_class .Constant))
          a m1 with
        | none => simp only [h2]; rfl
        | some m2 => simp only [h2]; rfl
  · rw [if_neg hr, if_neg hr]
    rfl

theorem match_some_iff (g : Graph) (n : Nat) (m : Matcher) :
    Matcher_match g reduction n = some m ↔
      is_supported_reduction (g.node n) = true ∧
      ∃ d a, (g.node n).inputs = [d, a] ∧ (g.node d).type_info = .Constant ∧
        (g.node a).type_info = .Constant ∧
        m = { match_root := n,
              pattern_map := [(constant_axes_label_id, a), (constant_data_label_id, d)] } := by
  rw [Matcher_match_reduction]
  by_cases hr : is_supported_reduction (g.node n) = true
  · rw [if_pos hr]
    rcases hin : (g.node n).inputs with _ | ⟨d, _ | ⟨a, _ | ⟨b, rest⟩⟩⟩
    · simp [hr]
    · simp [hr]
    · by_cases hda : (g.node d).type_info = .Constant ∧ (g.node a).type_info = .Constant
      · simp only [if_pos hda, Option.some.injEq, hr, true_and]
        constructor
        · intro h; exact ⟨d, a, rfl, hda.1, hda.2, h.symm⟩
        · rintro ⟨d1, a1, h1, _, _, h4⟩
          simp only [List.cons.injEq, and_true] at h1
          obtain ⟨rfl, rfl⟩ := h1
          exact h4.symm
      · simp only [if_neg hda, hr, true_and]
        constructor
        · intro h; cases h
        · rintro ⟨d1, a1, h1, h2, h3, _⟩
          simp only [List.cons.injEq, and_true] at h1
          obtain ⟨rfl, rfl⟩ := h1
          exact absurd ⟨h2, h3⟩ hda
    · simp [hr]
  · rw [if_neg hr]
    simp [hr]

/-! ## What a successful fold leaves behind -/

theorem node_replace_node (g : Graph) (t r i : Nat) :
    (replace_node g t r).node i
      = if i < g.nodes.length then
          { g.node i with inputs := (g.node i).inputs.map (fun s => if s = t then r else s) }
        else default :=
  node_map_nodes g _ i

/-- The helper `copy_runtime_info_to_target_inputs` touches runtime attributes only. -/
theorem node_copy_runtime_info (env : Env) (g : Graph) (t r i : Nat) :
    ((copy_runtime_info_to_target_inputs env g t r).node i).inputs = (g.node i).inputs ∧
    ((copy_runtime_info_to_target_inputs env g t r).node i).type_info = (g.node i).type_info ∧
    ((copy_runtime_info_to_target_inputs env g t r).node i).name = (g.node i).name ∧
    ((copy_runtime_info_to_target_inputs env g t r).node i).friendly_name
      = (g.node i).friendly_name ∧
    ((copy_runtime_info_to_target_inputs env g t r).node i).keep_dims = (g.node i).keep_dims ∧
    ((copy_runtime_info_to_target_inputs env g t r).node i).data = (g.node i).data ∧
    ((copy_runtime_info_to_target_inputs env g t r).node i).element_type
      = (g.node i).element_type ∧
    ((copy_runtime_info_to_target_inputs env g t r).node i).pshape = (g.node i).pshape := by
  unfold copy_runtime_info_to_target_inputs
  rw [node_map_nodes]
  by_cases h : i < g.nodes.length
  · rw [if_pos h]
    by_cases h2 : r ∈ (g.node i).inputs
    · rw [if_pos h2]
      exact ⟨rfl, rfl, rfl, rfl, rfl, rfl, rfl, rfl⟩
    · rw [if_neg h2]
      exact ⟨rfl, rfl, rfl, rfl, rfl, rfl, rfl, rfl⟩
  · rw [if_neg h, node_of_ge g i (Nat.le_of_not_lt h)]
    exact ⟨rfl, rfl, rfl, rfl, rfl, rfl, rfl, rfl⟩

/-- The graph after a successful callback: one constant more, at the end of the arena; it has
the friendly name of the matched root; every old node is as it was except that its inputs
that read the root now read the constant (and its runtime attributes, and the descriptor of
the revalidated root). -/
theorem callback_ok_nodes (env : Env) (g g1 : Graph) (m : Matcher)
    (h : constant_logical_reduction_callback env g m = (g1, .ok true)) :
    m.get_match_root < g.nodes.length ∧
    is_supported_reduction (g.node m.get_match_root) = true ∧
    g1.nodes.length = g.nodes.length + 1 ∧
    (∀ i, i < g.nodes.length →
      (g1.node i).inputs
        = (g.node i).inputs.map (fun s => if s = m.get_match_root then g.nodes.length else s) ∧
      (g1.node i).type_info = (g.node i).type_info ∧
      (g1.node i).name = (g.node i).name ∧
      (g1.node i).friendly_name = (g.node i).friendly_name ∧
      (g1.node i).keep_dims = (g.node i).keep_dims ∧
      (g1.node i).data = (g.node i).data ∧
      (i ≠ m.get_match_root → (g1.node i).element_type = (g.node i).element_type ∧
        (g1.node i).pshape = (g.node i).pshape)) ∧
    (g1.node g.nodes.length).type_info = .Constant ∧
    (g1.node g.nodes.length).inputs = [] ∧
    (g1.node g.nodes.length).friendly_name = (g.node m.get_match_root).friendly_name := by
  rcases callback_cases env g m with ⟨_, h1⟩ | ⟨e, h1⟩ | ⟨c, hf, h1⟩
  · rw [h1] at h; cases h
  · rw [h1] at h; cases h
  · rw [h1] at h
    have hg := (Prod.mk.inj h).1
    obtain ⟨hc1, hc2, hsup⟩ := fold_ok_constant _ _ _ _ hf
    have hrv := node_revalidate env g m.get_match_root
    have hsup1 : is_supported_reduction (g.node m.get_match_root) = true := by
      have h2 := (hrv m.get_match_root).2.1
      simpa [is_supported_reduction, has_class, h2] using hsup
    have hlt : m.get_match_root < g.nodes.length := by
      by_contra hge
      rw [node_of_ge g _ (Nat.le_of_not_lt hge), not_supported_default] at hsup1
      cases hsup1
    have hlen := length_revalidate env g m.get_match_root
    have hnode : ∀ i, g1.node i
        = (copy_runtime_info_to_target_inputs env
            (replace_node
              ((revalidate_and_ensure_static env g m.get_match_root).1.add_node
                (c.set_friendly_name ((revalidate_and_ensure_static env g
                  m.get_match_root).1.node m.get_match_root).get_friendly_name)).1
              m.get_match_root g.nodes.length)
            m.get_match_root g.nodes.length).node i := by
      intro i; rw [← hg]
    refine ⟨hlt, hsup1, ?_, ?_, ?_, ?_, ?_⟩
    · rw [← hg, length_copy_runtime_info, length_replace_node]
      simp [Graph.add_node, hlen]
    · intro i hi
      have hcp := node_copy_runtime_info env
        (replace_node
          ((revalidate_and_ensure_static env g m.get_match_root).1.add_node
            (c.set_friendly_name ((revalidate_and_ensure_static env g
              m.get_match_root).1.node m.get_match_root).get_friendly_name)).1
          m.get_match_root g.nodes.length) m.get_match_root g.nodes.length i
      have hi2 : i < ((revalidate_and_ensure_static env g m.get_match_root).1.add_node
            (c.set_friendly_name ((revalidate_and_ensure_static env g
              m.get_match_root).1.node m.get_match_root).get_friendly_name)).1.nodes.length := by
        simp [Graph.add_node, hlen]; omega
      rw [node_replace_node, if_pos hi2, node_add_node, hlen, if_pos hi] at hcp
      obtain ⟨r1, r2, r3, r4, _, r6, r7, r8⟩ := hrv i
      obtain ⟨c1, c2, c3, c4, c5, c6, c7, c8⟩ := hcp
      rw [hnode i]
      refine ⟨?_, ?_, ?_, ?_, ?_, ?_, ?_⟩
      · rw [c1]; simp only [r1]
      · rw [c2]; exact r2
      · rw [c3]; exact r3
      · rw [c4]; exact r4
      · rw [c5]; exact r6
      · rw [c6]; exact r7
      · intro hne
        rw [c7, c8]
        rw [(hrv i).2.2.2.2.2.2.2 hne]
        exact ⟨rfl, rfl⟩
    all_goals
      have hcp := node_copy_runtime_info env
        (replace_node
          ((revalidate_and_ensure_static env g m.get_match_root).1.add_node
            (c.set_friendly_name ((revalidate_and_ensure_static env g
              m.get_match_root).1.node m.get_match_root).get_friendly_name)).1
          m.get_match_root g.nodes.length) m.get_match_root g.nodes.length g.nodes.length
      have hi2 : g.nodes.length
          < ((revalidate_and_ensure_static env g m.get_match_root).1.add_node
            (c.set_friendly_name ((revalidate_and_ensure_static env g
              m.get_match_root).1.node m.get_match_root).get_friendly_name)).1.nodes.length := by
        simp [Graph.add_node, hlen]
      rw [node_replace_node, if_pos hi2, node_add_node, hlen, if_neg (Nat.lt_irrefl _),
        if_pos rfl] at hcp
      obtain ⟨c1, c2, c3, c4, c5, c6, c7, c8⟩ := hcp
      rw [hnode g.nodes.length]
    · rw [c2]; exact hc1
    · rw [c1]; simp [Node.set_friendly_name, hc2]
    · rw [c4]
      simp only [Node.set_friendly_name, Node.get_friendly_name]
      exact (hrv m.get_match_root).2.2.2.1

theorem get?_map_rewire (l : List Nat) (t r k s : Nat) (h : l.get? k = some s) :
    (l.map (fun x => if x = t then r else x)).get? k = some (if s = t then r else s) := by
  simp only [List.get?_eq_getElem?] at h ⊢
  rw [List.getElem?_map, h]
  rfl

/-- C9: after a successful fold (the callback returns true) the arena holds one new node, a
constant carrying the friendly name of the reduction node it replaced; every consumer edge
that pointed at the reduction node's output points at the new constant's output; no node
reads the old node any more; every other edge is as it was. -/
theorem callback_replaces_node (env : Env) (g g1 : Graph) (m : Matcher)
    (h : constant_logical_reduction_callback env g m = (g1, .ok true)) :
    g1.nodes.length = g.nodes.length + 1 ∧
    (g1.node g.nodes.length).type_info = .Constant ∧
    (g1.node g.nodes.length).get_friendly_name
      = (g.node m.get_match_root).get_friendly_name ∧
    (∀ c k, (g.node c).inputs.get? k = some m.get_match_root →
      (g1.node c).inputs.get? k = some g.nodes.length) ∧
    (∀ c, m.get_match_root ∉ (g1.node c).inputs) ∧
    g1.consumers m.get_match_root = [] ∧
    (∀ c k s, s ≠ m.get_match_root → (g.node c).inputs.get? k = some s →
      (g1.node c).inputs.get? k = some s) := by
  obtain ⟨hlt, _, hlen, hold, hk, hin, hfn⟩ := callback_ok_nodes env g g1 m h
  have hinputs : ∀ c, (g1.node c).inputs
      = (g.node c).inputs.map
          (fun s => if s = m.get_match_root then g.nodes.length else s) := by
    intro c
    by_cases hc : c < g.nodes.length
    · exact (hold c hc).1
    · rw [node_of_ge g c (Nat.le_of_not_lt hc)]
      by_cases hc2 : c = g.nodes.length
      · rw [hc2, hin]; rfl
      · rw [node_of_ge g1 c (by omega)]; rfl
  have hno : ∀ c, m.get_match_root ∉ (g1.node c).inputs := by
    intro c hmem
    rw [hinputs c, List.mem_map] at hmem
    obtain ⟨s, _, hs⟩ := hmem
    by_cases hsr : s = m.get_match_root
    · rw [if_pos hsr] at hs; omega
    · rw [if_neg hsr] at hs; exact hsr hs
  refine ⟨hlen, hk, hfn, ?_, hno, ?_, ?_⟩
  · intro c k hck
    rw [hinputs c, get?_map_rewire _ _ _ _ _ hck, if_pos rfl]
  · simp only [Graph.consumers, List.filter_eq_nil_iff, decide_eq_true_eq]
    intro c _
    exact hno c
  · intro c k s hs hck
    rw [hinputs c, get?_map_rewire _ _ _ _ _ hck, if_neg hs]

/-- The fold of scenario B: the constant of node 4 is called `all_rows` like the reduction,
the result node reads node 4, and nothing reads node 2. -/
theorem callback_replaces_node_witness :
    constant_logical_reduction_callback example_env scenario_B example_match
      = (scenario_B_folded, .ok true) ∧
    (scenario_B_folded.node 4).get_friendly_name = "all_rows" ∧
    (scenario_B_folded.node 3).inputs.get? 0 = some 4 ∧
    scenario_B_folded.consumers 2 = [] :=
  ⟨rfl,
   (callback_replaces_node example_env scenario_B scenario_B_folded example_match rfl).2.2.1,
   (callback_replaces_node example_env scenario_B scenario_B_folded example_match rfl).2.2.2.1
     3 0 rfl,
   (callback_replaces_node example_env scenario_B scenario_B_folded example_match
     rfl).2.2.2.2.2.1⟩

/-! ## The frame of the pass -/

theorem supported_congr {n1 n2 : Node} (h : n1.type_info = n2.type_info) :
    is_supported_reduction n1 = is_supported_reduction n2 := by
  simp [is_supported_reduction, has_class, h]

theorem not_supported_of_constant {n : Node} (h : n.type_info = .Constant) :
    is_supported_reduction n = false := by
  simp [is_supported_reduction, has_class, h]

theorem Frame_refl (g : Graph) : Frame g g where
  length_le := Nat.le_refl _
  same := fun _ _ => ⟨rfl, rfl, rfl, rfl, rfl, rfl⟩
  fresh := fun _ h1 h2 => absurd h2 (Nat.not_lt.mpr h1)
  edges := fun _ _ _ _ h => Or.inl h
  descr := fun _ _ _ => ⟨rfl, rfl⟩

/-- A root matched in a later state is an old node, and a foldable one. -/
theorem Frame_root {g0 g : Graph} (hf : Frame g0 g) {r : Nat} {m : Matcher}
    (hm : Matcher_match g reduction r = some m) :
    r < g0.nodes.length ∧ foldable g0 r = true ∧ m.get_match_root = r := by
  obtain ⟨hsup, d, a, hin, _, ha, hmm⟩ := (match_some_iff g r m).mp hm
  have hrg : r < g.nodes.length := by
    by_contra hge
    rw [node_of_ge g r (Nat.le_of_not_lt hge), not_supported_default] at hsup
    cases hsup
  have hr0 : r < g0.nodes.length := by
    by_contra hge
    have h1 := hf.fresh r (Nat.le_of_not_lt hge) hrg
    rw [not_supported_of_constant h1] at hsup
    cases hsup
  obtain ⟨hty, _, _, _, _, hlen⟩ := hf.same r hr0
  have hsup0 : is_supported_reduction (g0.node r) = true := by
    rw [← supported_congr hty]; exact hsup
  refine ⟨hr0, ?_, by rw [hmm]; rfl⟩
  have hl2 : (g0.node r).inputs.length = 2 := by rw [← hlen, hin]; rfl
  have h1lt : 1 < (g0.node r).inputs.length := by omega
  have hget : (g0.node r).inputs.get? 1 = some ((g0.node r).inputs[1]) := by
    rw [List.get?_eq_getElem?, List.getElem?_eq_getElem h1lt]
  unfold foldable
  rw [hsup0, hget]
  simp only [Bool.true_and, Bool.or_eq_true, decide_eq_true_eq]
  rcases hf.edges r 1 _ hr0 hget with h1 | ⟨h1, _, _⟩
  · rw [hin] at h1
    have ha0 : a = (g0.node r).inputs[1] := by simpa using h1
    by_cases hlt : (g0.node r).inputs[1] < g0.nodes.length
    · left; right
      have h2 := (hf.same _ hlt).1
      rw [← ha0] at h2
      simp only [has_class, decide_eq_true_eq]
      rw [← ha0, ← h2]; exact ha
    · left; left; omega
  · right
    unfold foldable at h1
    simp only [Bool.and_eq_true] at h1
    exact h1.1

/-- One callback on a match keeps the frame. -/
theorem Frame_callback (env : Env) {g0 g : Graph} (hf : Frame g0 g) {r : Nat} {m : Matcher}
    (hm : Matcher_match g reduction r = some m) :
    Frame g0 (constant_logical_reduction_callback env g m).1 := by
  obtain ⟨hr0, hfold, hroot⟩ := Frame_root hf hm
  rcases callback_cases env g m with ⟨_, h1⟩ | ⟨e, h1⟩ | ⟨c, _, h1⟩
  · rw [h1]; exact hf
  · rw [h1]
    have hrv := node_revalidate env g m.get_match_root
    have hlen := length_revalidate env g m.get_match_root
    refine ⟨by rw [hlen]; exact hf.length_le, ?_, ?_, ?_, ?_⟩
    · intro i hi
      obtain ⟨r1, r2, r3, r4, _, r6, r7, _⟩ := hrv i
      obtain ⟨s1, s2, s3, s4, s5, s6⟩ := hf.same i hi
      exact ⟨r2.trans s1, r3.trans s2, r4.trans s3, r6.trans s4, r7.trans s5,
        (congrArg List.length r1).trans s6⟩
    · intro i h1 h2
      rw [hlen] at h2
      exact ((hrv i).2.1).trans (hf.fresh i h1 h2)
    · intro i k s hi hk
      rw [(hrv i).1, hlen]
      exact hf.edges i k s hi hk
    · intro i hi hnf
      have hne : i ≠ m.get_match_root := by
        intro he
        rw [he, hroot, hfold] at hnf
        cases hnf
      rw [(hrv i).2.2.2.2.2.2.2 hne]
      exact hf.descr i hi hnf
  · obtain ⟨hlt, _, hlen, hold, hk, _, _⟩ := callback_ok_nodes env g _ m h1
    rw [h1]
    refine ⟨by rw [hlen]; exact Nat.le_succ_of_le hf.length_le, ?_, ?_, ?_, ?_⟩
    · intro i hi
      obtain ⟨o1, o2, o3, o4, o5, o6, _⟩ := hold i (Nat.lt_of_lt_of_le hi hf.length_le)
      obtain ⟨s1, s2, s3, s4, s5, s6⟩ := hf.same i hi
      refine ⟨o2.trans s1, o3.trans s2, o4.trans s3, o5.trans s4, o6.trans s5, ?_⟩
      rw [o1, List.length_map]; exact s6
    · intro i h1 h2
      rw [hlen] at h2
      by_cases hi : i < g.nodes.length
      · exact ((hold i hi).2.1).trans (hf.fresh i h1 hi)
      · have hie : i = g.nodes.length := by omega
        rw [hie]; exact hk
    · intro i k s hi hks
      have hig := Nat.lt_of_lt_of_le hi hf.length_le
      rw [(hold i hig).1, hlen]
      rcases hf.edges i k s hi hks with h2 | ⟨h2, h3, s1, h4, h5, h6⟩
      · rw [get?_map_rewire _ _ _ _ _ h2]
        by_cases hs : s = m.get_match_root
        · right
          rw [if_pos hs]
          refine ⟨by rw [hs, hroot]; exact hfold, by rw [hs, hroot]; exact hr0,
            g.nodes.length, rfl, hf.length_le, Nat.lt_succ_self _⟩
        · left
          rw [if_neg hs]
      · right
        have hs1 : s1 ≠ m.get_match_root := by rw [hroot]; omega
        refine ⟨h2, h3, s1, ?_, h5, Nat.lt_succ_of_lt h6⟩
        rw [get?_map_rewire _ _ _ _ _ h4, if_neg hs1]
    · intro i hi hnf
      have hne : i ≠ m.get_match_root := by
        intro he
        rw [he, hroot, hfold] at hnf
        cases hnf
      obtain ⟨e1, e2⟩ := (hold i (Nat.lt_of_lt_of_le hi hf.length_le)).2.2.2.2.2.2 hne
      obtain ⟨d1, d2⟩ := hf.descr i hi hnf
      exact ⟨e1.trans d1, e2.trans d2⟩

/-- Every state a scan goes through is within the frame of the start graph. -/
theorem Frame_scan (env : Env) (g0 : Graph) :
    ∀ (ns : List Nat) (g : Graph), Frame g0 g → Frame g0 (scan env ns g).1 := by
  intro ns
  induction ns with
  | nil => intro g hf; exact hf
  | cons n ns ih =>
    intro g hf
    cases hm : Matcher_match g reduction n with
    | none =>
      simp only [scan, hm]
      exact ih g hf
    | some m =>
      have hstep := Frame_callback env hf hm
      rcases hcb : constant_logical_reduction_callback env g m with ⟨g1, res⟩
      rw [hcb] at hstep
      cases res with
      | error e =>
        simp only [scan, hm, hcb]
        exact hstep
      | ok rewritten =>
        have h2 := ih g1 hstep
        rcases hsc : scan env ns g1 with ⟨g2, res2⟩
        rw [hsc] at h2
        cases res2 <;> simp only [scan, hm, hcb, hsc] <;> exact h2

/-- Every state the pass ends in, whatever the number of scans, is within the frame. -/
theorem Frame_run (env : Env) (g0 : Graph) :
    ∀ (tries : Nat) (g : Graph), Frame g0 g → Frame g0 (run_on_function env tries g).1 := by
  intro tries
  induction tries with
  | zero => intro g hf; exact hf
  | succ tries ih =>
    intro g hf
    have h1 := Frame_scan env g0 (get_ordered_ops g) g hf
    rcases hsc : scan env (get_ordered_ops g) g with ⟨g1, res⟩
    rw [hsc] at h1
    cases res with
    | error e =>
      simp only [run_on_function, hsc]
      exact h1
    | ok b =>
      cases b with
      | false =>
        simp only [run_on_function, hsc]
        exact h1
      | true =>
        have h2 := ih g1 h1
        rcases hr : run_on_function env tries g1 with ⟨g2, res2⟩
        rw [hr] at h2
        cases res2 <;> simp only [run_on_function, hsc, hr] <;> exact h2

/-- The dispatch of `evaluate_greater_equal` once `set_broadcast` has prepared the output. -/
theorem evaluate_greater_equal_eq (fge : Type_t → Int → Int → Bool)
    (arg0 arg1 out out1 : HostTensor) (spec : AutoBroadcastSpec)
    (hb : out.set_broadcast spec arg0 arg1 Type_t.boolean = .ok out1) :
    evaluate_greater_equal fge arg0 arg1 out spec =
      .ok (match arg0.element_type with
        | .boolean => evaluate fge .boolean arg0 arg1 out1 spec
        | .i32 => evaluate fge .i32 arg0 arg1 out1 spec
        | .i64 => evaluate fge .i64 arg0 arg1 out1 spec
        | .u32 => evaluate fge .u32 arg0 arg1 out1 spec
        | .u64 => evaluate fge .u64 arg0 arg1 out1 spec
        | .f16 => evaluate fge .f16 arg0 arg1 out1 spec
        | .f32 => evaluate fge .f32 arg0 arg1 out1 spec
        | _ => (false, out1)) := by
  unfold evaluate_greater_equal
  rw [hb]
  simp only [bind, Except.bind, HostTensor.get_element_type]
  cases arg0.element_type <;> rfl

/-- C5 as stated fails: `set_broadcast` (line 68) runs before the switch on the element
type, so on two tensors whose shapes it rejects, here an int8 pair of shapes {2} and {3} under
the modes NONE and NUMPY, `evaluate_greater_equal` and both `evaluate` methods raise instead of
returning false. -/
theorem inconsistent_shapes_raise :
    evaluate_greater_equal no_float { element_type := .i8, shape := [2], data := [1, 5] }
        { element_type := .i8, shape := [3], data := [2, 5, 1] } fresh_output
        { m_type := .NONE, m_axis := 0 }
      = .error "Argument shapes are inconsistent." ∧
    evaluate_greater_equal no_float { element_type := .i8, shape := [2], data := [1, 5] }
        { element_type := .i8, shape := [3], data := [2, 5, 1] } fresh_output
        { m_type := .NUMPY, m_axis := 0 }
      = .error "Argument shapes are inconsistent." ∧
    GreaterEq_evaluate no_float { m_type := .NUMPY, m_axis := 0 } [fresh_output]
        [{ element_type := .i8, shape := [2], data := [1, 5] },
         { element_type := .i8, shape := [3], data := [2, 5, 1] }]
      = .error "Argument shapes are inconsistent." ∧
    GreaterEqual_evaluate no_float { m_type := .NUMPY, m_axis := 0 } [fresh_output]
        [{ element_type := .i8, shape := [2], data := [1, 5] },
         { element_type := .i8, shape := [3], data := [2, 5, 1] }]
      = .error "Argument shapes are inconsistent." :=
  ⟨rfl, rfl, rfl, rfl⟩


/-- C5 (as the code has it): on every pair of input tensors whose shapes `set_broadcast`
accepts, `evaluate_greater_equal` does not raise on an element type without a kernel (i8, i16,
u8, u16, f64, bf16, u1 and the two non-value tags): it returns false and leaves the prepared
output alone; on every element type with a kernel (boolean, i32, i64, u32, u64, f16, f32) it
returns true. Both `evaluate` methods return what it returns. -/
theorem evaluate_greater_equal_skips_unsupported (fge : Type_t → Int → Int → Bool)
    (arg0 arg1 out out1 : HostTensor) (spec : AutoBroadcastSpec)
    (hb : out.set_broadcast spec arg0 arg1 Type_t.boolean = .ok out1) :
    (arg0.element_type ∈ [Type_t.i8, .i16, .u8, .u16, .f64, .bf16, .u1, .undefined, .dynamic] →
      evaluate_greater_equal fge arg0 arg1 out spec = .ok (false, out1)) ∧
    (arg0.element_type ∈ [Type_t.boolean, .i32, .i64, .u32, .u64, .f16, .f32] →
      ∃ o, evaluate_greater_equal fge arg0 arg1 out spec = .ok (true, o)) ∧
    (∀ outs ins, GreaterEq_evaluate fge spec (out :: outs) (arg0 :: arg1 :: ins)
      = evaluate_greater_equal fge arg0 arg1 out spec) ∧
    (∀ outs ins, GreaterEqual_evaluate fge spec (out :: outs) (arg0 :: arg1 :: ins)
      = evaluate_greater_equal fge arg0 arg1 out spec) := by
  refine ⟨?_, ?_, fun _ _ => rfl, fun _ _ => rfl⟩ <;>
    rw [evaluate_greater_equal_eq fge arg0 arg1 out out1 spec hb]
  · intro h
    simp only [List.mem_cons, List.mem_singleton, List.not_mem_nil, or_false] at h
    rcases h with h | h | h | h | h | h | h | h | h <;> rw [h]
  · intro h
    simp only [List.mem_cons, List.mem_singleton, List.not_mem_nil, or_false] at h
    rcases h with h | h | h | h | h | h | h <;> rw [h] <;> exact ⟨_, rfl⟩

/-- An int8 pair is skipped with `false`, an int32 pair is evaluated with `true`. -/
theorem evaluate_greater_equal_skips_unsupported_witness :
    evaluate_greater_equal no_float (example_tensor .i8 [1, 5, 3]) (example_tensor .i8 [2, 5, 1])
        fresh_output { m_type := .NUMPY, m_axis := 0 }
      = .ok (false, { element_type := .boolean, shape := [3], data := [0, 0, 0] }) ∧
    ∃ o, evaluate_greater_equal no_float scenario_A_arg0 scenario_A_arg1 fresh_output
        { m_type := .NUMPY, m_axis := 0 } = .ok (true, o) :=
  ⟨(evaluate_greater_equal_skips_unsupported no_float (example_tensor .i8 [1, 5, 3])
      (example_tensor .i8 [2, 5, 1]) fresh_output
      { element_type := .boolean, shape := [3], data := [0, 0, 0] }
      { m_type := .NUMPY, m_axis := 0 } rfl).1 (by decide),
   (evaluate_greater_equal_skips_unsupported no_float scenario_A_arg0 scenario_A_arg1
      fresh_output { element_type := .boolean, shape := [3], data := [0, 0, 0] }
      { m_type := .NUMPY, m_axis := 0 } rfl).2.1 (by decide)⟩

/-- C6 as stated fails for the standard-width types without a `TYPE_CASE` line: on
two tensors of type i8, i16, u8, u16 or f64 the evaluator returns false, not success. -/
theorem no_kernel_for_narrow_types :
    evaluate_greater_equal no_float (example_tensor .i8 [1, 5, 3])
        (example_tensor .i8 [2, 5, 1]) fresh_output { m_type := .NONE, m_axis := 0 }
      = .ok (false, { element_type := .boolean, shape := [3], data := [0, 0, 0] }) ∧
    evaluate_greater_equal no_float (example_tensor .i16 [1, 5, 3])
        (example_tensor .i16 [2, 5, 1]) fresh_output { m_type := .NONE, m_axis := 0 }
      = .ok (false, { element_type := .boolean, shape := [3], data := [0, 0, 0] }) ∧
    evaluate_greater_equal no_float (example_tensor .u8 [1, 5, 3])
        (example_tensor .u8 [2, 5, 1]) fresh_output { m_type := .NONE, m_axis := 0 }
      = .ok (false, { element_type := .boolean, shape := [3], data := [0, 0, 0] }) ∧
    evaluate_greater_equal no_float (example_tensor .u16 [1, 5, 3])
        (example_tensor .u16 [2, 5, 1]) fresh_output { m_type := .NONE, m_axis := 0 }
      = .ok (false, { element_type := .boolean, shape := [3], data := [0, 0, 0] }) ∧
    evaluate_greater_equal no_float (example_tensor .f64 [1, 5, 3])
        (example_tensor .f64 [2, 5, 1]) fresh_output { m_type := .NONE, m_axis := 0 }
      = .ok (false, { element_type := .boolean, shape := [3], data := [0, 0, 0] }) :=
  ⟨rfl, rfl, rfl, rfl, rfl⟩

/-- C6 (as the code has it): of the standard-width element types the evaluator has a kernel
for boolean, i32, i64, u32, u64, f16 and f32, and on two inputs of such a type, with shapes
`set_broadcast` accepts, it returns success (true); for i8, i16, u8, u16 and f64 there is no
kernel and it returns false. -/
theorem evaluate_greater_equal_kernels (fge : Type_t → Int → Int → Bool)
    (arg0 arg1 out out1 : HostTensor) (spec : AutoBroadcastSpec)
    (hb : out.set_broadcast spec arg0 arg1 Type_t.boolean = .ok out1)
    (hstd : arg0.element_type ∈ [Type_t.boolean, .i8, .i16, .i32, .i64, .u8, .u16, .u32, .u64,
      .f16, .f32, .f64]) :
    ∃ rc o, evaluate_greater_equal fge arg0 arg1 out spec = .ok (rc, o) ∧
      (rc = true ↔
        arg0.element_type ∈ [Type_t.boolean, .i32, .i64, .u32, .u64, .f16, .f32]) ∧
      (rc = false ↔ arg0.element_type ∈ [Type_t.i8, .i16, .u8, .u16, .f64]) := by
  rw [evaluate_greater_equal_eq fge arg0 arg1 out out1 spec hb]
  simp only [List.mem_cons, List.mem_singleton, List.not_mem_nil, or_false] at hstd
  rcases hstd with h | h | h | h | h | h | h | h | h | h | h | h <;> rw [h] <;>
    exact ⟨_, _, rfl, by decide, by decide⟩

/-- The kernels on scenario A (int32, success) and on an f64 pair (no kernel, false). -/
theorem evaluate_greater_equal_kernels_witness :
    (∃ rc o, evaluate_greater_equal no_float scenario_A_arg0 scenario_A_arg1 fresh_output
        { m_type := .NUMPY, m_axis := 0 } = .ok (rc, o) ∧ rc = true) ∧
    (∃ rc o, evaluate_greater_equal no_float (example_tensor .f64 [1, 5, 3])
        (example_tensor .f64 [2, 5, 1]) fresh_output
        { m_type := .NUMPY, m_axis := 0 } = .ok (rc, o) ∧ rc = false) := by
  constructor
  · obtain ⟨rc, o, h1, h2, _⟩ := evaluate_greater_equal_kernels no_float scenario_A_arg0
      scenario_A_arg1 fresh_output { element_type := .boolean, shape := [3], data := [0, 0, 0] }
      { m_type := .NUMPY, m_axis := 0 } rfl (by decide)
    exact ⟨rc, o, h1, h2.mpr (by decide)⟩
  · obtain ⟨rc, o, h1, _, h3⟩ := evaluate_greater_equal_kernels no_float
      (example_tensor .f64 [1, 5, 3]) (example_tensor .f64 [2, 5, 1]) fresh_output
      { element_type := .boolean, shape := [3], data := [0, 0, 0] }
      { m_type := .NUMPY, m_axis := 0 } rfl (by decide)
    exact ⟨rc, o, h1, h3.mpr (by decide)⟩

theorem get_shape_error (n : Node) (e : String) (h : n.get_shape = .error e) :
    e = "to_shape was called on a dynamic shape." := by
  unfold Node.get_shape PShape_to_shape at h
  split at h
  · cases h
  · exact (Except.error.inj h).symm

theorem get_input_shape_error (g : Graph) (n : Node) (i : Nat) (e : String)
    (h : get_input_shape g n i = .error e) :
    e = "to_shape was called on a dynamic shape." ∨ e = "input index out of range" := by
  unfold get_input_shape at h
  split at h
  · exact Or.inl (get_shape_error _ e h)
  · exact Or.inr (Except.error.inj h).symm

/-- On a supported reduction the fold runs the kernel of the And or of the Or branch; the
errors it can still raise are those of reading a dynamic shape. -/
theorem fold_supported (g : Graph) (constant n : Node)
    (hsup : is_supported_reduction n = true) :
    fold_constant_logical_reduction g constant n =
      match n.get_shape, get_input_shape g n 0 with
      | .error e, _ => .error e
      | .ok _, .error e => .error e
      | .ok out_shape, .ok input_shape =>
        .ok (make_constant ("Constant_" ++ toString g.nodes.length) n.get_output_element_type
          out_shape
          (if n.type_info = .ReduceLogicalAnd then
            reduce_logical_and constant.data (List.replicate (shape_size out_shape * 1) 0)
              input_shape (get_reduction_axes g n) n.get_keep_dims
          else
            reduce_logical_or constant.data (List.replicate (shape_size out_shape * 1) 0)
              input_shape (get_reduction_axes g n) n.get_keep_dims)) := by
  simp only [is_supported_reduction, has_class, Bool.or_eq_true, decide_eq_true_eq] at hsup
  unfold fold_constant_logical_reduction
  cases hsh : n.get_shape with
  | error e => rfl
  | ok sh =>
    cases hin : get_input_shape g n 0 with
    | error e =>
      rcases hsup with h | h
      · simp [h, hin, bind, Except.bind]
      · simp [h, hin, bind, Except.bind]
    | ok s =>
      rcases hsup with h | h
      · simp [h, hin, bind, Except.bind, pure, Except.pure]
      · simp [h, hin, bind, Except.bind, pure, Except.pure]

theorem fold_supported_error (g : Graph) (constant n : Node)
    (hsup : is_supported_reduction n = true) (e : String)
    (h : fold_constant_logical_reduction g constant n = .error e) : e ≠ internal_error := by
  rw [fold_supported g constant n hsup] at h
  cases hsh : n.get_shape with
  | error e1 =>
    rw [hsh] at h
    have h1 := get_shape_error n e1 hsh
    have h2 : e1 = e := Except.error.inj h
    rw [← h2, h1]
    decide
  | ok sh =>
    cases hin : get_input_shape g n 0 with
    | error e1 =>
      rw [hsh, hin] at h
      have h2 : e1 = e := Except.error.inj h
      rcases get_input_shape_error g n 0 e1 hin with h1 | h1 <;> rw [← h2, h1] <;> decide
    | ok s =>
      rw [hsh, hin] at h
      cases h

/-- The error a callback raises is the failed staticity check or an error of the fold. -/
theorem callback_error (env : Env) (g : Graph) (m : Matcher) (e : String)
    (h : (constant_logical_reduction_callback env g m).2 = .error e) :
    e = check_failure ∨
    fold_constant_logical_reduction (revalidate_and_ensure_static env g m.get_match_root).1
      ((revalidate_and_ensure_static env g m.get_match_root).1.node
        ((m.get_pattern_map.lookup constant_data_label_id).getD 0))
      ((revalidate_and_ensure_static env g m.get_match_root).1.node m.get_match_root)
      = .error e := by
  by_cases hd : env.cf_is_disabled (g.node m.get_match_root) = true
  · simp [constant_logical_reduction_callback, hd] at h
  · have hd1 : env.cf_is_disabled (g.node m.get_match_root) = false := by simpa using hd
    by_cases hr : (revalidate_and_ensure_static env g m.get_match_root).2 = false
    · left
      simp [constant_logical_reduction_callback, hd1, hr] at h
      exact h.symm
    · have hr1 : (revalidate_and_ensure_static env g m.get_match_root).2 = true := by
        simpa using hr
      right
      cases hf : fold_constant_logical_reduction
          (revalidate_and_ensure_static env g m.get_match_root).1
          ((revalidate_and_ensure_static env g m.get_match_root).1.node
            ((m.get_pattern_map.lookup constant_data_label_id).getD 0))
          ((revalidate_and_ensure_static env g m.get_match_root).1.node m.get_match_root) with
      | error e1 =>
        simp [constant_logical_reduction_callback, hd1, hr1, hf] at h
        rw [h]
      | ok c =>
        simp [constant_logical_reduction_callback, hd1, hr1, hf] at h

/-- C15: the ops handled by `fold_constant_logical_reduction` are consistent with those the
pattern matches: on every node the root predicate `is_supported_reduction` accepts, the fold
takes the ReduceLogicalAnd or the ReduceLogicalOr branch and never raises the
"Internal nGraph error"; and a callback run on a match of the pattern never raises it, so
the check is unreachable from the callback. A node the predicate rejects does reach it. -/
theorem internal_error_unreachable (env : Env) (g : Graph) (r : Nat) (m : Matcher)
    (hm : Matcher_match g reduction r = some m) :
    (∀ (g1 : Graph) (constant n : Node), is_supported_reduction n = true →
      (n.type_info = .ReduceLogicalAnd ∨ n.type_info = .ReduceLogicalOr) ∧
      ∀ e, fold_constant_logical_reduction g1 constant n = .error e → e ≠ internal_error) ∧
    (constant_logical_reduction_callback env g m).2 ≠ .error internal_error ∧
    (∀ (g1 : Graph) (constant n : Node) (sh : Shape), is_supported_reduction n = false →
      n.get_shape = .ok sh →
      fold_constant_logical_reduction g1 constant n = .error internal_error) := by
  refine ⟨?_, ?_, ?_⟩
  · intro g1 constant n hsup
    refine ⟨?_, fun e he => fold_supported_error g1 constant n hsup e he⟩
    simpa [is_supported_reduction, has_class] using hsup
  · intro h
    obtain ⟨hsup, _, _, _, _, _, hmm⟩ := (match_some_iff g r m).mp hm
    have hroot : m.get_match_root = r := by rw [hmm]; rfl
    rcases callback_error env g m internal_error h with h1 | h1
    · revert h1; decide
    · have hty := (node_revalidate env g m.get_match_root m.get_match_root).2.1
      have hsup1 : is_supported_reduction
          ((revalidate_and_ensure_static env g m.get_match_root).1.node m.get_match_root)
          = true := by
        rw [supported_congr hty, hroot]; exact hsup
      exact fold_supported_error _ _ _ hsup1 _ h1 rfl
  · intro g1 constant n sh hns hsh
    simp only [is_supported_reduction, has_class, Bool.or_eq_false_iff,
      decide_eq_false_iff_not] at hns
    unfold fold_constant_logical_reduction
    rw [hsh]
    simp [hns.1, hns.2, bind, Except.bind, throw, throwThe, MonadExceptOf.throw]

/-- On the match of scenario B the callback folds, and on a match whose staticity check
fails the error is the check failure, not the internal error. -/
theorem internal_error_unreachable_witness :
    (constant_logical_reduction_callback example_env scenario_B example_match).2
      ≠ .error internal_error ∧
    (constant_logical_reduction_callback dynamic_env scenario_B example_match).2
      ≠ .error internal_error :=
  ⟨(internal_error_unreachable example_env scenario_B 2 example_match (by decide)).2.1,
   (internal_error_unreachable dynamic_env scenario_B 2 example_match (by decide)).2.1⟩

/-! ## The fixed point of the pass -/

theorem mem_of_mem_eraseDups_loop (v : Nat) :
    ∀ (as bs : List Nat), v ∈ List.eraseDups.loop as bs → v ∈ as ∨ v ∈ bs := by
  intro as
  induction as with
  | nil => intro bs h; right; simpa [List.eraseDups.loop] using h
  | cons a as ih =>
    intro bs h
    unfold List.eraseDups.loop at h
    split at h
    · rcases ih bs h with h1 | h1
      · exact Or.inl (List.mem_cons_of_mem a h1)
      · exact Or.inr h1
    · rcases ih (a :: bs) h with h1 | h1
      · exact Or.inl (List.mem_cons_of_mem a h1)
      · rcases List.mem_cons.mp h1 with h2 | h2
        · exact Or.inl (by rw [h2]; exact List.mem_cons_self a as)
        · exact Or.inr h2

theorem mem_reach_step (g : Graph) (live : List Nat) (v : Nat) (h : v ∈ reach_step g live) :
    v ∈ live ∨ ∃ c, v ∈ (g.node c).inputs := by
  unfold reach_step at h
  rcases List.mem_append.mp h with h1 | h1
  · exact Or.inl h1
  · right
    have h2 := (List.mem_filter.mp h1).1
    rcases mem_of_mem_eraseDups_loop v _ [] h2 with h3 | h3
    · obtain ⟨c, _, hc⟩ := List.mem_flatMap.mp h3
      exact ⟨c, hc⟩
    · simp at h3

theorem mem_iterate_reach (g : Graph) (v : Nat) :
    ∀ (k : Nat) (live : List Nat), v ∈ Nat.iterate (reach_step g) k live →
      v ∈ live ∨ ∃ c, v ∈ (g.node c).inputs := by
  intro k
  induction k with
  | zero => intro live h; exact Or.inl h
  | succ k ih =>
    intro live h
    rcases ih (reach_step g live) h with h1 | h1
    · exact mem_reach_step g live v h1
    · exact Or.inr h1

theorem mem_consumers (g : Graph) (n c : Nat) (h : n ∈ (g.node c).inputs) :
    c ∈ g.consumers n := by
  have hc : c < g.nodes.length := by
    by_contra hge
    rw [node_of_ge g c (Nat.le_of_not_lt hge)] at h
    simp [default] at h
  simp only [Graph.consumers, List.mem_filter, List.mem_range, decide_eq_true_eq]
  exact ⟨hc, h⟩

theorem consumers_ne_nil_iff (g : Graph) (n : Nat) :
    (g.consumers n).isEmpty = false ↔ ∃ c, c < g.nodes.length ∧ n ∈ (g.node c).inputs := by
  constructor
  · intro h
    cases hl : g.consumers n with
    | nil => rw [hl] at h; cases h
    | cons c cs =>
      have hc : c ∈ g.consumers n := by rw [hl]; exact List.mem_cons_self c cs
      simp only [Graph.consumers, List.mem_filter, List.mem_range, decide_eq_true_eq] at hc
      exact ⟨c, hc⟩
  · rintro ⟨c, _, hc⟩
    have h1 := mem_consumers g n c hc
    cases hl : g.consumers n with
    | nil => rw [hl] at h1; cases h1
    | cons => rfl

theorem wf_result (g : Graph) (hwf : results_wf g = true) (r : Nat) (hr : r ∈ g.results) :
    (g.node r).type_info = .Result := by
  simp only [results_wf, List.all_eq_true, has_class, decide_eq_true_eq] at hwf
  exact hwf r hr

/-- A reduction a scan visits is read by some node: the scan visits nodes reachable from the
results, and a result is no reduction. -/
theorem ordered_ops_consumed (g : Graph) (hwf : results_wf g = true) (n : Nat)
    (hn : n ∈ get_ordered_ops g) (hsup : is_supported_reduction (g.node n) = true) :
    (g.consumers n).isEmpty = false := by
  simp only [get_ordered_ops, List.mem_filter, List.mem_range, decide_eq_true_eq] at hn
  rcases mem_iterate_reach g n _ _ hn.2 with h1 | ⟨c, hc⟩
  · have h2 := wf_result g hwf n h1
    simp [is_supported_reduction, has_class, h2] at hsup
  · have h3 := mem_consumers g n c hc
    cases hl : g.consumers n with
    | nil => rw [hl] at h3; cases h3
    | cons => rfl

theorem nodup_ordered_ops (g : Graph) : (get_ordered_ops g).Nodup := by
  unfold get_ordered_ops
  exact (List.nodup_range _).filter _

theorem length_pending_le (g : Graph) : (pending_reductions g).length ≤ g.nodes.length := by
  unfold pending_reductions
  exact (List.length_filter_le _ _).trans (by simp)

/-- After a successful fold, a node other than the root that some node read is still read. -/
theorem callback_ok_consumed (env : Env) (g g1 : Graph) (m : Matcher)
    (h : constant_logical_reduction_callback env g m = (g1, .ok true)) (n : Nat)
    (hne : n ≠ m.get_match_root) (hc : (g.consumers n).isEmpty = false) :
    (g1.consumers n).isEmpty = false := by
  obtain ⟨_, _, hlen, hold, _, _, _⟩ := callback_ok_nodes env g g1 m h
  obtain ⟨c, hcl, hcn⟩ := (consumers_ne_nil_iff g n).mp hc
  refine (consumers_ne_nil_iff g1 n).mpr ⟨c, by omega, ?_⟩
  rw [(hold c hcl).1, List.mem_map]
  exact ⟨n, hcn, by rw [if_neg hne]⟩

/-- A node that is read after a successful fold was read before it, and is not the root. -/
theorem callback_ok_consumed_inv (env : Env) (g g1 : Graph) (m : Matcher)
    (h : constant_logical_reduction_callback env g m = (g1, .ok true)) (n : Nat)
    (hn : n < g.nodes.length) (hc : (g1.consumers n).isEmpty = false) :
    n ≠ m.get_match_root ∧ (g.consumers n).isEmpty = false := by
  obtain ⟨_, _, hlen, hold, _, hin, _⟩ := callback_ok_nodes env g g1 m h
  obtain ⟨c, hcl, hcn⟩ := (consumers_ne_nil_iff g1 n).mp hc
  have hc2 : c < g.nodes.length := by
    by_contra hge
    have hce : c = g.nodes.length := by omega
    rw [hce, hin] at hcn
    simp at hcn
  rw [(hold c hc2).1, List.mem_map] at hcn
  obtain ⟨s, hs, hsn⟩ := hcn
  by_cases hsr : s = m.get_match_root
  · rw [if_pos hsr] at hsn; omega
  · rw [if_neg hsr] at hsn
    subst hsn
    exact ⟨hsr, (consumers_ne_nil_iff g s).mpr ⟨c, hc2, hs⟩⟩

/-- A successful fold of a root that some node read takes one reduction off the pending ones. -/
theorem callback_ok_pending (env : Env) (g g1 : Graph) (m : Matcher)
    (h : constant_logical_reduction_callback env g m = (g1, .ok true))
    (hc : (g.consumers m.get_match_root).isEmpty = false) :
    (pending_reductions g1).length < (pending_reductions g).length := by
  obtain ⟨hlt, hsup, hlen, hold, hk, _, _⟩ := callback_ok_nodes env g g1 m h
  have hroot : m.get_match_root ∈ pending_reductions g := by
    simp only [pending_reductions, List.mem_filter, List.mem_range, Bool.and_eq_true,
      Bool.not_eq_true']
    exact ⟨hlt, hsup, hc⟩
  have hsub : pending_reductions g1 ⊆ (pending_reductions g).erase m.get_match_root := by
    intro i hi
    simp only [pending_reductions, List.mem_filter, List.mem_range, Bool.and_eq_true,
      Bool.not_eq_true'] at hi
    obtain ⟨hi1, hi2, hi3⟩ := hi
    have hil : i < g.nodes.length := by
      by_contra hge
      have hie : i = g.nodes.length := by omega
      rw [hie, not_supported_of_constant hk] at hi2
      cases hi2
    obtain ⟨hne, hcg⟩ := callback_ok_consumed_inv env g g1 m h i hil hi3
    rw [List.mem_erase_of_ne hne]
    simp only [pending_reductions, List.mem_filter, List.mem_range, Bool.and_eq_true,
      Bool.not_eq_true']
    refine ⟨hil, ?_, hcg⟩
    rw [← supported_congr (hold i hil).2.1]; exact hi2
  have hnd : (pending_reductions g1).Nodup := (List.nodup_range _).filter _
  have h1 := (hnd.subperm hsub).length_le
  rw [List.length_erase_of_mem hroot] at h1
  have h2 : 0 < (pending_reductions g).length := List.length_pos_of_mem hroot
  omega

/-- What one scan over distinct candidates achieves when it ends without error: the pending
reductions do not grow; if it rewrote the graph they have become fewer; if it rewrote nothing
the graph is the one it started from and every candidate the pattern matches is
fold-disabled. -/
theorem scan_progress (env : Env) :
    ∀ (ns : List Nat) (g g1 : Graph) (b : Bool), ns.Nodup →
      (∀ n ∈ ns, is_supported_reduction (g.node n) = true →
        (g.consumers n).isEmpty = false) →
      scan env ns g = (g1, .ok b) →
      (pending_reductions g1).length ≤ (pending_reductions g).length ∧
      (b = true → (pending_reductions g1).length < (pending_reductions g).length) ∧
      (b = false → g1 = g ∧ ∀ n ∈ ns, ∀ m, Matcher_match g reduction n = some m →
        env.cf_is_disabled (g.node n) = true) := by
  intro ns
  induction ns with
  | nil =>
    intro g g1 b _ _ hs
    simp only [scan] at hs
    obtain ⟨rfl, hb⟩ := Prod.mk.inj hs
    have hb1 : false = b := Except.ok.inj hb
    subst hb1
    exact ⟨Nat.le_refl _, fun h => (by cases h), fun _ => ⟨rfl, fun n hn => (by simp at hn)⟩⟩
  | cons n ns ih =>
    intro g g1 b hnd hcons hs
    have hnd1 : ns.Nodup := (List.nodup_cons.mp hnd).2
    have hnn : n ∉ ns := (List.nodup_cons.mp hnd).1
    cases hm : Matcher_match g reduction n with
    | none =>
      simp only [scan, hm] at hs
      obtain ⟨p1, p2, p3⟩ := ih g g1 b hnd1
        (fun k hk => hcons k (List.mem_cons_of_mem n hk)) hs
      refine ⟨p1, p2, fun hb => ⟨(p3 hb).1, ?_⟩⟩
      intro k hk m hkm
      rcases List.mem_cons.mp hk with h1 | h1
      · rw [h1, hm] at hkm; cases hkm
      · exact (p3 hb).2 k h1 m hkm
    | some m =>
      obtain ⟨hsup, _, _, _, _, _, hmm⟩ := (match_some_iff g n m).mp hm
      have hroot : m.get_match_root = n := by rw [hmm]; rfl
      rcases callback_cases env g m with ⟨hdis, h1⟩ | ⟨e, h1⟩ | ⟨c, _, h1⟩
      · rcases hsc : scan env ns g with ⟨g2, res2⟩
        cases res2 with
        | error e =>
          simp only [scan, hm, h1, hsc] at hs
          cases (Prod.mk.inj hs).2
        | ok more =>
          simp only [scan, hm, h1, hsc, Bool.false_or] at hs
          obtain ⟨rfl, hb⟩ := Prod.mk.inj hs
          have hb1 : more = b := Except.ok.inj hb
          subst hb1
          obtain ⟨p1, p2, p3⟩ := ih g g2 more hnd1
            (fun k hk => hcons k (List.mem_cons_of_mem n hk)) hsc
          refine ⟨p1, p2, fun hb => ⟨(p3 hb).1, ?_⟩⟩
          intro k hk m1 hkm
          rcases List.mem_cons.mp hk with h2 | h2
          · rw [h2, ← hroot]; exact hdis
          · exact (p3 hb).2 k h2 m1 hkm
      · simp only [scan, hm, h1] at hs
        cases (Prod.mk.inj hs).2
      · obtain ⟨g3, hg3⟩ : ∃ g3, constant_logical_reduction_callback env g m
            = (g3, .ok true) := ⟨_, h1⟩
        have hcn : (g.consumers m.get_match_root).isEmpty = false := by
          rw [hroot]; exact hcons n (List.mem_cons_self n ns) hsup
        have hlt := callback_ok_pending env g g3 m hg3 hcn
        obtain ⟨_, _, hlen, hold, hkc, _, _⟩ := callback_ok_nodes env g g3 m hg3
        have hcons3 : ∀ k ∈ ns, is_supported_reduction (g3.node k) = true →
            (g3.consumers k).isEmpty = false := by
          intro k hk hsk
          have hkl : k < g.nodes.length := by
            by_contra hge
            by_cases hke : k = g.nodes.length
            · rw [hke, not_supported_of_constant hkc] at hsk; cases hsk
            · rw [node_of_ge g3 k (by omega), not_supported_default] at hsk; cases hsk
          have hkn : k ≠ m.get_match_root := by
            rw [hroot]; intro he; exact hnn (he ▸ hk)
          have hsg : is_supported_reduction (g.node k) = true := by
            rw [← supported_congr (hold k hkl).2.1]; exact hsk
          exact callback_ok_consumed env g g3 m hg3 k hkn
            (hcons k (List.mem_cons_of_mem n hk) hsg)
        rcases hsc : scan env ns g3 with ⟨g2, res2⟩
        cases res2 with
        | error e =>
          simp only [scan, hm, hg3, hsc] at hs
          cases (Prod.mk.inj hs).2
        | ok more =>
          simp only [scan, hm, hg3, hsc, Bool.true_or] at hs
          obtain ⟨rfl, hb⟩ := Prod.mk.inj hs
          have hb1 : true = b := Except.ok.inj hb
          subst hb1
          obtain ⟨p1, _, _⟩ := ih g3 g2 more hnd1 hcons3 hsc
          exact ⟨by omega, fun _ => (by omega), fun hb => (by cases hb)⟩

theorem callback_results (env : Env) (g : Graph) (m : Matcher) :
    (constant_logical_reduction_callback env g m).1.results = g.results := by
  rcases callback_cases env g m with ⟨_, h1⟩ | ⟨e, h1⟩ | ⟨c, _, h1⟩ <;> rw [h1] <;> rfl

theorem scan_results (env : Env) :
    ∀ (ns : List Nat) (g : Graph), (scan env ns g).1.results = g.results := by
  intro ns
  induction ns with
  | nil => intro g; rfl
  | cons n ns ih =>
    intro g
    cases hm : Matcher_match g reduction n with
    | none => simp only [scan, hm]; exact ih g
    | some m =>
      have hcb := callback_results env g m
      rcases hc : constant_logical_reduction_callback env g m with ⟨g1, res⟩
      rw [hc] at hcb
      cases res with
      | error e => simp only [scan, hm, hc]; exact hcb
      | ok rewritten =>
        have h2 := ih g1
        rcases hsc : scan env ns g1 with ⟨g2, res2⟩
        rw [hsc] at h2
        cases res2 <;> simp only [scan, hm, hc, hsc] <;> exact h2.trans hcb

/-- A scan keeps the declared outputs `Result` nodes. -/
theorem wf_scan (env : Env) (ns : List Nat) (g : Graph) (hwf : results_wf g = true) :
    results_wf (scan env ns g).1 = true := by
  have hf := Frame_scan env g ns g (Frame_refl g)
  simp only [results_wf, List.all_eq_true, has_class, decide_eq_true_eq, scan_results]
  intro r hr
  have h1 := wf_result g hwf r hr
  have hrl : r < g.nodes.length := by
    by_contra hge
    rw [node_of_ge g r (Nat.le_of_not_lt hge)] at h1
    cases h1
  rw [(hf.same r hrl).1]; exact h1

/-- With more scans allowed than there are pending reductions, a pass that ends without
error ends in a fixed point: one more scan rewrites nothing. -/
theorem run_fixed_point (env : Env) :
    ∀ (tries : Nat) (g g1 : Graph) (b : Bool), results_wf g = true →
      (pending_reductions g).length < tries →
      run_on_function env tries g = (g1, .ok b) →
      scan env (get_ordered_ops g1) g1 = (g1, .ok false) := by
  intro tries
  induction tries with
  | zero => intro g g1 b _ h _; omega
  | succ tries ih =>
    intro g g1 b hwf hlt hrun
    rcases hsc : scan env (get_ordered_ops g) g with ⟨g2, res⟩
    have hprog := fun b2 (h : scan env (get_ordered_ops g) g = (g2, .ok b2)) =>
      scan_progress env (get_ordered_ops g) g g2 b2 (nodup_ordered_ops g)
        (fun n hn hs => ordered_ops_consumed g hwf n hn hs) h
    cases res with
    | error e =>
      simp only [run_on_function, hsc] at hrun
      cases (Prod.mk.inj hrun).2
    | ok rewritten =>
      cases rewritten with
      | false =>
        simp only [run_on_function, hsc] at hrun
        obtain ⟨rfl, _⟩ := Prod.mk.inj hrun
        have hg := ((hprog false hsc).2.2 rfl).1
        rw [hg] at hsc ⊢
        exact hsc
      | true =>
        have hdec := (hprog true hsc).2.1 rfl
        have hwf2 : results_wf g2 = true := by
          have := wf_scan env (get_ordered_ops g) g hwf
          rw [hsc] at this; exact this
        rcases hr : run_on_function env tries g2 with ⟨g3, res3⟩
        cases res3 with
        | error e =>
          simp only [run_on_function, hsc, hr] at hrun
          cases (Prod.mk.inj hrun).2
        | ok b3 =>
          simp only [run_on_function, hsc, hr] at hrun
          obtain ⟨rfl, _⟩ := Prod.mk.inj hrun
          exact ih g2 g3 b3 hwf2 (by omega) hr

/-- From a fixed point every further pass returns the graph as it is. -/
theorem run_of_fixed_point (env : Env) (g : Graph)
    (h : scan env (get_ordered_ops g) g = (g, .ok false)) :
    ∀ tries, run_on_function env tries g = (g, .ok false) := by
  intro tries
  cases tries with
  | zero => rfl
  | succ tries => simp only [run_on_function, h]

/-- C11 as stated fails on a graph with a fold-disabled reduction: the pass on
`scenario_disabled` ends without rewriting, and node 2, which the result reads, still
matches the pattern after the run. -/
theorem disabled_reduction_still_matches :
    run_on_function example_env 5 scenario_disabled = (scenario_disabled, .ok false) ∧
    2 ∈ get_ordered_ops (run_on_function example_env 5 scenario_disabled).1 ∧
    Matcher_match (run_on_function example_env 5 scenario_disabled).1 reduction 2
      = some example_match :=
  ⟨rfl, by decide, by decide⟩

/-- C11 (as the code has it): a pass that ends without error, given more scans than the
graph has nodes, ends in a graph on which a second pass, of any length, changes nothing and
returns false: running the pass twice gives the very graph running it once gives. After the
run, a node of the graph, reachable from the results, that still matches the pattern is
fold-disabled, so its callback changes nothing; and every node a fold has added is a
Constant, which the root predicate rejects. -/
theorem pass_idempotent (env : Env) (g g1 : Graph) (tries : Nat) (b : Bool)
    (hwf : results_wf g = true) (htries : g.nodes.length < tries)
    (hrun : run_on_function env tries g = (g1, .ok b)) :
    (∀ tries2, run_on_function env tries2 g1 = (g1, .ok false)) ∧
    (∀ tries2, (run_on_function env tries2 (run_on_function env tries g).1).1
      = (run_on_function env tries g).1) ∧
    (∀ n ∈ get_ordered_ops g1, ∀ m, Matcher_match g1 reduction n = some m →
      env.cf_is_disabled (g1.node n) = true) ∧
    (∀ i, g.nodes.length ≤ i → i < g1.nodes.length →
      (g1.node i).type_info = .Constant ∧ is_supported_reduction (g1.node i) = false ∧
      Matcher_match g1 reduction i = none) := by
  have hfix := run_fixed_point env tries g g1 b hwf
    (Nat.lt_of_le_of_lt (length_pending_le g) htries) hrun
  have hwf1 : results_wf g1 = true := by
    have hf := Frame_run env g tries g (Frame_refl g)
    rw [hrun] at hf
    have hres : g1.results = g.results := by
      have h1 : ∀ (t : Nat) (g0 : Graph), (run_on_function env t g0).1.results = g0.results := by
        intro t
        induction t with
        | zero => intro g0; rfl
        | succ t iht =>
          intro g0
          have hs := scan_results env (get_ordered_ops g0) g0
          rcases hsc : scan env (get_ordered_ops g0) g0 with ⟨g2, res⟩
          rw [hsc] at hs
          cases res with
          | error e => simp only [run_on_function, hsc]; exact hs
          | ok rw1 =>
            cases rw1 with
            | false => simp only [run_on_function, hsc]; exact hs
            | true =>
              have h2 := iht g2
              rcases hr : run_on_function env t g2 with ⟨g3, res3⟩
              rw [hr] at h2
              cases res3 <;> simp only [run_on_function, hsc, hr] <;> exact h2.trans hs
      have := h1 tries g
      rw [hrun] at this; exact this
    simp only [results_wf, List.all_eq_true, has_class, decide_eq_true_eq, hres]
    intro r hr
    have h1 := wf_result g hwf r hr
    have hrl : r < g.nodes.length := by
      by_contra hge
      rw [node_of_ge g r (Nat.le_of_not_lt hge)] at h1
      cases h1
    rw [(hf.same r hrl).1]; exact h1
  have hprog := scan_progress env (get_ordered_ops g1) g1 g1 false (nodup_ordered_ops g1)
    (fun n hn hs => ordered_ops_consumed g1 hwf1 n hn hs) hfix
  refine ⟨run_of_fixed_point env g1 hfix, ?_, (hprog.2.2 rfl).2, ?_⟩
  · intro tries2
    rw [hrun, run_of_fixed_point env g1 hfix tries2]
  · intro i hi1 hi2
    have hf := Frame_run env g tries g (Frame_refl g)
    rw [hrun] at hf
    have hc := hf.fresh i hi1 hi2
    have hns := not_supported_of_constant hc
    refine ⟨hc, hns, ?_⟩
    cases hm : Matcher_match g1 reduction i with
    | none => rfl
    | some m =>
      have h1 := ((match_some_iff g1 i m).mp hm).1
      rw [hns] at h1
      cases h1

/-- The pass on a graph with a fold-disabled and a foldable reduction: one run folds node 4
and leaves node 2; a second run returns the same graph and false; node 2 still matches and
is fold-disabled; the added node 7 is a Constant. -/
theorem pass_idempotent_witness :
    (run_on_function selective_env 8 scenario_two).2 = .ok true ∧
    run_on_function selective_env 8 (run_on_function selective_env 8 scenario_two).1
      = ((run_on_function selective_env 8 scenario_two).1, .ok false) ∧
    ((run_on_function selective_env 8 scenario_two).1.node 7).type_info = .Constant ∧
    ((run_on_function selective_env 8 scenario_two).1.node 5).inputs = [2, 7] ∧
    selective_env.cf_is_disabled ((run_on_function selective_env 8 scenario_two).1.node 2)
      = true :=
  have h := pass_idempotent selective_env scenario_two
    (run_on_function selective_env 8 scenario_two).1 8 true (by decide) (by decide) rfl
  ⟨rfl, h.1 8, (h.2.2.2 7 (by decide) (by decide)).1, by decide,
   h.2.2.1 2 (by decide) example_match (by decide)⟩

/-! ## The staticity check on a matched node, and the shape of the folded constant -/

theorem length_of_get_shape (n : Node) (s : Shape) (h : n.get_shape = .ok s) :
    s.length = n.pshape.length := by
  unfold Node.get_shape PShape_to_shape at h
  split at h
  · have h1 := Except.ok.inj h
    rw [← h1]; simp
  · cases h

/-- Re-running inference on a matched root leaves its two constant inputs alone. -/
theorem revalidate_matched (env : Env) (g : Graph) (r d a : Nat)
    (hsup : is_supported_reduction (g.node r) = true)
    (hin : (g.node r).inputs = [d, a])
    (hd : (g.node d).type_info = .Constant) (ha : (g.node a).type_info = .Constant) :
    r < g.nodes.length ∧
    (revalidate_and_ensure_static env g r).1.node d = g.node d ∧
    get_input_shape (revalidate_and_ensure_static env g r).1
      ((revalidate_and_ensure_static env g r).1.node r) 0 = (g.node d).get_shape ∧
    get_reduction_axes (revalidate_and_ensure_static env g r).1
      ((revalidate_and_ensure_static env g r).1.node r) = get_reduction_axes g (g.node r) ∧
    ((revalidate_and_ensure_static env g r).1.node r).element_type
      = (env.validate_and_infer_types g r).1 ∧
    ((revalidate_and_ensure_static env g r).1.node r).pshape
      = (env.validate_and_infer_types g r).2 := by
  have hlt : r < g.nodes.length := by
    by_contra hge
    rw [node_of_ge g _ (Nat.le_of_not_lt hge), not_supported_default] at hsup
    cases hsup
  have hdr : d ≠ r := by
    intro h
    rw [h] at hd
    rw [not_supported_of_constant hd] at hsup
    cases hsup
  have har : a ≠ r := by
    intro h
    rw [h] at ha
    rw [not_supported_of_constant ha] at hsup
    cases hsup
  have hrv := node_revalidate env g r
  have hnd := (hrv d).2.2.2.2.2.2.2 hdr
  have hna := (hrv a).2.2.2.2.2.2.2 har
  have hinr := (hrv r).1
  refine ⟨hlt, hnd, ?_, ?_, ?_, ?_⟩
  · simp only [get_input_shape, hinr, hin, List.get?, hnd]
  · simp only [get_reduction_axes, hinr, hin, List.get?, hna, (hrv r).2.1]
  · simp [revalidate_and_ensure_static, node_set_node, hlt]
  · simp [revalidate_and_ensure_static, node_set_node, hlt]

/-- What inference gives a matched root under the shape rule, and what the fold then
builds from the revalidated node. -/
theorem fold_revalidated (env : Env) (g : Graph) (r d a : Nat) (s : Shape)
    (henv : infers_reductions env)
    (hsup : is_supported_reduction (g.node r) = true)
    (hin : (g.node r).inputs = [d, a])
    (hd : (g.node d).type_info = .Constant) (ha : (g.node a).type_info = .Constant)
    (hs : (g.node d).get_shape = .ok s) :
    env.validate_and_infer_types g r
      = ((g.node d).element_type,
         (reduce s (get_reduction_axes g (g.node r)) (g.node r).keep_dims).map some) ∧
    ∃ c, fold_constant_logical_reduction (revalidate_and_ensure_static env g r).1
        ((revalidate_and_ensure_static env g r).1.node d)
        ((revalidate_and_ensure_static env g r).1.node r) = .ok c ∧
      c.type_info = .Constant ∧ c.inputs = [] ∧
      c.element_type = (g.node d).element_type ∧
      c.pshape = (reduce s (get_reduction_axes g (g.node r)) (g.node r).keep_dims).map some ∧
      c.data.length
        = shape_size (reduce s (get_reduction_axes g (g.node r)) (g.node r).keep_dims) := by
  obtain ⟨hlt, hnd, hgis, hax, het, hps⟩ := revalidate_matched env g r d a hsup hin hd ha
  have hrv := node_revalidate env g r r
  have hinf : infer_reduction g (g.node r)
      = .ok ((g.node d).element_type,
          reduce s (get_reduction_axes g (g.node r)) (g.node r).keep_dims) := by
    have h1 : get_input_shape g (g.node r) 0 = .ok s := by
      simp only [get_input_shape, hin, List.get?, hs]
    simp [infer_reduction, h1, hin, bind, Except.bind, pure, Except.pure]
  have hval := henv g r _ hsup hinf
  simp only at hval
  refine ⟨hval, ?_⟩
  rw [hval] at het hps
  simp only at het hps
  have hkd := hrv.2.2.2.2.2.1
  have hty := hrv.2.1
  have hs1 : get_input_shape (revalidate_and_ensure_static env g r).1
      ((revalidate_and_ensure_static env g r).1.node r) 0 = .ok s := by rw [hgis, hs]
  have hp1 : ((revalidate_and_ensure_static env g r).1.node r).pshape
      = (reduce s (get_reduction_axes (revalidate_and_ensure_static env g r).1
            ((revalidate_and_ensure_static env g r).1.node r))
          ((revalidate_and_ensure_static env g r).1.node r).keep_dims).map some := by
    rw [hps, hax, hkd]
  rw [fold_eq _ _ _ s hs1 hp1, hax, hkd, hty, het]
  simp only [is_supported_reduction, has_class, Bool.or_eq_true, decide_eq_true_eq] at hsup
  by_cases h1 : (g.node r).type_info = .ReduceLogicalAnd
  · rw [if_pos h1]
    refine ⟨_, rfl, rfl, rfl, rfl, rfl, ?_⟩
    simp [make_constant, length_reduce_logical_and_spec]
  · have h2 : (g.node r).type_info = .ReduceLogicalOr := hsup.resolve_left h1
    rw [if_neg h1, if_pos h2]
    refine ⟨_, rfl, rfl, rfl, rfl, rfl, ?_⟩
    simp [make_constant, length_reduce_logical_or_spec]

/-- The descriptors after a successful callback: the new constant has the type, shape and
payload of the constant the fold built, and the root keeps its revalidated descriptor. -/
theorem callback_ok_constant (env : Env) (g g1 : Graph) (m : Matcher)
    (h : constant_logical_reduction_callback env g m = (g1, .ok true)) :
    ∃ c, fold_constant_logical_reduction (revalidate_and_ensure_static env g m.get_match_root).1
          ((revalidate_and_ensure_static env g m.get_match_root).1.node
            ((m.get_pattern_map.lookup constant_data_label_id).getD 0))
          ((revalidate_and_ensure_static env g m.get_match_root).1.node m.get_match_root)
          = .ok c ∧
      (g1.node g.nodes.length).element_type = c.element_type ∧
      (g1.node g.nodes.length).pshape = c.pshape ∧
      (g1.node g.nodes.length).data = c.data ∧
      (g1.node m.get_match_root).element_type
        = ((revalidate_and_ensure_static env g m.get_match_root).1.node
            m.get_match_root).element_type ∧
      (g1.node m.get_match_root).pshape
        = ((revalidate_and_ensure_static env g m.get_match_root).1.node
            m.get_match_root).pshape := by
  have hlt := (callback_ok_nodes env g g1 m h).1
  rcases callback_cases env g m with ⟨_, h1⟩ | ⟨e, h1⟩ | ⟨c, hf, h1⟩
  · rw [h1] at h; cases h
  · rw [h1] at h; cases h
  · rw [h1] at h
    have hg := (Prod.mk.inj h).1
    have hlen := length_revalidate env g m.get_match_root
    have hnode : ∀ i, g1.node i
        = (copy_runtime_info_to_target_inputs env
            (replace_node
              ((revalidate_and_ensure_static env g m.get_match_root).1.add_node
                (c.set_friendly_name ((revalidate_and_ensure_static env g
                  m.get_match_root).1.node m.get_match_root).get_friendly_name)).1
              m.get_match_root g.nodes.length)
            m.get_match_root g.nodes.length).node i := by
      intro i; rw [← hg]
    have hnew := node_copy_runtime_info env
      (replace_node
        ((revalidate_and_ensure_static env g m.get_match_root).1.add_node
          (c.set_friendly_name ((revalidate_and_ensure_static env g
            m.get_match_root).1.node m.get_match_root).get_friendly_name)).1
        m.get_match_root g.nodes.length) m.get_match_root g.nodes.length g.nodes.length
    have hold := node_copy_runtime_info env
      (replace_node
        ((revalidate_and_ensure_static env g m.get_match_root).1.add_node
          (c.set_friendly_name ((revalidate_and_ensure_static env g
            m.get_match_root).1.node m.get_match_root).get_friendly_name)).1
        m.get_match_root g.nodes.length) m.get_match_root g.nodes.length m.get_match_root
    have hi1 : g.nodes.length
        < ((revalidate_and_ensure_static env g m.get_match_root).1.add_node
          (c.set_friendly_name ((revalidate_and_ensure_static env g
            m.get_match_root).1.node m.get_match_root).get_friendly_name)).1.nodes.length := by
      simp [Graph.add_node, hlen]
    have hi2 : m.get_match_root
        < ((revalidate_and_ensure_static env g m.get_match_root).1.add_node
          (c.set_friendly_name ((revalidate_and_ensure_static env g
            m.get_match_root).1.node m.get_match_root).get_friendly_name)).1.nodes.length := by
      simp [Graph.add_node, hlen]; omega
    rw [node_replace_node, if_pos hi1, node_add_node, hlen, if_neg (Nat.lt_irrefl _),
      if_pos rfl] at hnew
    rw [node_replace_node, if_pos hi2, node_add_node, hlen, if_pos hlt] at hold
    obtain ⟨_, _, _, _, _, n6, n7, n8⟩ := hnew
    obtain ⟨_, _, _, _, _, _, o7, o8⟩ := hold
    refine ⟨c, hf, ?_, ?_, ?_, ?_, ?_⟩
    · rw [hnode, n7]; rfl
    · rw [hnode, n8]; rfl
    · rw [hnode, n6]; rfl
    · rw [hnode, o7]
    · rw [hnode, o8]

/-- On a matched root, under the shape rule, a callback that folds leaves the graph with a
new constant whose descriptor is the one inferred for the root. -/
theorem callback_ok_matched (env : Env) (g g1 : Graph) (r : Nat) (m : Matcher)
    (henv : infers_reductions env)
    (hm : Matcher_match g reduction r = some m)
    (hcb : constant_logical_reduction_callback env g m = (g1, .ok true)) :
    ∃ d a s, (g.node r).inputs = [d, a] ∧ (g.node d).type_info = .Constant ∧
      (g.node d).get_shape = .ok s ∧
      env.validate_and_infer_types g r
        = ((g.node d).element_type,
           (reduce s (get_reduction_axes g (g.node r)) (g.node r).keep_dims).map some) ∧
      (g1.node g.nodes.length).element_type = (g.node d).element_type ∧
      (g1.node g.nodes.length).pshape
        = (reduce s (get_reduction_axes g (g.node r)) (g.node r).keep_dims).map some ∧
      (g1.node g.nodes.length).data.length
        = shape_size (reduce s (get_reduction_axes g (g.node r)) (g.node r).keep_dims) ∧
      (g1.node r).element_type = (g.node d).element_type ∧
      (g1.node r).pshape
        = (reduce s (get_reduction_axes g (g.node r)) (g.node r).keep_dims).map some := by
  obtain ⟨hsup, d, a, hin, hd, ha, hmm⟩ := (match_some_iff g r m).mp hm
  have hroot : m.get_match_root = r := by rw [hmm]; rfl
  have hcm : (m.get_pattern_map.lookup constant_data_label_id).getD 0 = d := by
    rw [hmm]; rfl
  obtain ⟨c, hf, k1, k2, k3, k4, k5⟩ := callback_ok_constant env g g1 m hcb
  rw [hroot, hcm] at hf
  rw [hroot] at k4 k5
  obtain ⟨_, _, hgis, _, het, hps⟩ := revalidate_matched env g r d a hsup hin hd ha
  have hrv := node_revalidate env g r r
  have hsup1 : is_supported_reduction ((revalidate_and_ensure_static env g r).1.node r)
      = true := by
    rw [supported_congr hrv.2.1]; exact hsup
  have hfs := fold_supported (revalidate_and_ensure_static env g r).1
    ((revalidate_and_ensure_static env g r).1.node d)
    ((revalidate_and_ensure_static env g r).1.node r) hsup1
  rw [hf, hgis] at hfs
  cases hs : (g.node d).get_shape with
  | error e =>
    rw [hs] at hfs
    split at hfs <;> simp_all
  | ok s =>
    obtain ⟨hval, c1, hf1, _, _, e3, e4, e5⟩ :=
      fold_revalidated env g r d a s henv hsup hin hd ha hs
    have hc : c = c1 := Except.ok.inj (hf.symm.trans hf1)
    subst hc
    refine ⟨d, a, s, hin, hd, hs, hval, ?_, ?_, ?_, ?_, ?_⟩
    · rw [k1, e3]
    · rw [k2, e4]
    · rw [k3, e5]
    · rw [k4, het, hval]
    · rw [k5, hps, hval]


/-- The helpers of the examples follow the shape rule. -/
theorem example_env_infers : infers_reductions example_env := by
  intro g id d _ h
  simp only [example_env, h]

theorem length_reduce_logical_and (arg out : List Int) (s : Shape) (axes : AxisSet)
    (keep : Bool) : (reduce_logical_and arg out s axes keep).length = out.length := by
  unfold reduce_logical_and
  exact (length_foldl_set _ _ _ _).trans (length_foldl_set _ (fun _ _ => 1) _ _)

theorem length_reduce_logical_or (arg out : List Int) (s : Shape) (axes : AxisSet)
    (keep : Bool) : (reduce_logical_or arg out s axes keep).length = out.length := by
  unfold reduce_logical_or
  exact (length_foldl_set _ _ _ _).trans (length_foldl_set _ (fun _ _ => 0) _ _)

theorem map_some_getD : ∀ ps : PShape, PShape_is_static ps = true →
    (ps.map (fun d => d.getD 0)).map some = ps := by
  intro ps
  induction ps with
  | nil => intro _; rfl
  | cons p ps ih =>
    intro h
    simp only [PShape_is_static, List.all_cons, Bool.and_eq_true] at h
    have h2 := ih h.2
    cases p with
    | none => cases h.1
    | some v =>
      simp only [List.map_cons, Option.getD_some]
      rw [h2]

theorem pshape_of_get_shape (n : Node) (s : Shape) (h : n.get_shape = .ok s) :
    n.pshape = s.map some := by
  unfold Node.get_shape PShape_to_shape at h
  split at h
  · rename_i hst
    have h1 := Except.ok.inj h
    rw [← h1, map_some_getD _ hst]
  · cases h

/-- What a callback that folds has built, whatever the node's inference computes: the new
constant has the output descriptor the re-run inference stored at the root, and as many
elements as the buffer allocated from the root's shape. -/
theorem callback_ok_fold (env : Env) (g g1 : Graph) (r : Nat) (m : Matcher)
    (hm : Matcher_match g reduction r = some m)
    (hcb : constant_logical_reduction_callback env g m = (g1, .ok true)) :
    ∃ d a input_shape out_shape,
      (g.node r).inputs = [d, a] ∧ (g.node d).type_info = .Constant ∧
      (g.node d).get_shape = .ok input_shape ∧
      (g1.node r).element_type = (env.validate_and_infer_types g r).1 ∧
      (g1.node r).pshape = (env.validate_and_infer_types g r).2 ∧
      (g1.node r).get_shape = .ok out_shape ∧
      (g1.node g.nodes.length).element_type = (g1.node r).element_type ∧
      (g1.node g.nodes.length).pshape = (g1.node r).pshape ∧
      (g1.node g.nodes.length).data.length
        = (List.replicate (shape_size out_shape * 1) (0 : Int)).length := by
  obtain ⟨hsup, d, a, hin, hd, ha, hmm⟩ := (match_some_iff g r m).mp hm
  have hroot : m.get_match_root = r := by rw [hmm]; rfl
  have hcm : (m.get_pattern_map.lookup constant_data_label_id).getD 0 = d := by
    rw [hmm]; rfl
  obtain ⟨c, hf, k1, k2, k3, k4, k5⟩ := callback_ok_constant env g g1 m hcb
  rw [hroot, hcm] at hf
  rw [hroot] at k4 k5
  obtain ⟨_, _, hgis, _, het, hps⟩ := revalidate_matched env g r d a hsup hin hd ha
  have hrv := node_revalidate env g r r
  have hsup1 : is_supported_reduction ((revalidate_and_ensure_static env g r).1.node r)
      = true := by
    rw [supported_congr hrv.2.1]; exact hsup
  have hfs := fold_supported (revalidate_and_ensure_static env g r).1
    ((revalidate_and_ensure_static env g r).1.node d)
    ((revalidate_and_ensure_static env g r).1.node r) hsup1
  rw [hf, hgis] at hfs
  cases hsh : ((revalidate_and_ensure_static env g r).1.node r).get_shape with
  | error e =>
    rw [hsh] at hfs
    cases hfs
  | ok o =>
    cases hs : (g.node d).get_shape with
    | error e =>
      rw [hsh, hs] at hfs
      cases hfs
    | ok s =>
      rw [hsh, hs] at hfs
      have hc := Except.ok.inj hfs
      have hpo := pshape_of_get_shape _ _ hsh
      have hsh1 : (g1.node r).get_shape = .ok o := by
        rw [Node.get_shape, k5, ← Node.get_shape, hsh]
      refine ⟨d, a, s, o, hin, hd, hs, by rw [k4, het], by rw [k5, hps], hsh1, ?_, ?_, ?_⟩
      · rw [k1, k4, hc]; rfl
      · rw [k2, k5, hc, hpo]; rfl
      · rw [k3, hc]
        simp only [make_constant, List.length_take, List.length_replicate]
        split <;> simp [length_reduce_logical_and, length_reduce_logical_or]

/-- C4: for every folded logical reduction (the pattern matched and the callback returned
true), the node added to the arena, which the consumers of the reduction now read, is a
Constant; its element type and shape are the reduction node's output descriptor, the one the
callback's re-run inference has just stored at the node; and it holds as many elements as the
buffer allocated for it, `shape_size` of the node's shape times one byte. When the node's
inference follows the shape rule, that shape is the reduced input shape, so the buffer has
exactly as many elements as there are output positions for the kernel to write, and the rank
of the constant is the input rank under keep-dims and the input rank minus the number of
reduction axes otherwise. -/
theorem folded_constant_shape_law (env : Env) (g g1 : Graph) (r : Nat) (m : Matcher)
    (hm : Matcher_match g reduction r = some m)
    (hcb : constant_logical_reduction_callback env g m = (g1, .ok true)) :
    ∃ d a input_shape out_shape,
      (g.node r).inputs = [d, a] ∧ (g.node d).get_shape = .ok input_shape ∧
      (g1.node g.nodes.length).type_info = .Constant ∧
      (∀ c k, (g.node c).inputs.get? k = some r →
        (g1.node c).inputs.get? k = some g.nodes.length) ∧
      ((g1.node r).element_type, (g1.node r).pshape) = env.validate_and_infer_types g r ∧
      (g1.node r).get_shape = .ok out_shape ∧
      (g1.node g.nodes.length).element_type = (g1.node r).element_type ∧
      (g1.node g.nodes.length).pshape = (g1.node r).pshape ∧
      (g1.node g.nodes.length).pshape = out_shape.map some ∧
      (g1.node g.nodes.length).data.length = shape_size out_shape * 1 ∧
      (infers_reductions env →
        (g1.node g.nodes.length).element_type = (g.node d).element_type ∧
        out_shape
          = reduce input_shape (get_reduction_axes g (g.node r)) (g.node r).keep_dims ∧
        shape_size out_shape * 1
          = (coordinates (reduce input_shape (get_reduction_axes g (g.node r))
              (g.node r).keep_dims)).length ∧
        ((∀ x ∈ get_reduction_axes g (g.node r), x < input_shape.length) →
          (g1.node g.nodes.length).pshape.length =
            (if (g.node r).keep_dims = true then input_shape.length
             else input_shape.length - (get_reduction_axes g (g.node r)).dedup.length))) := by
  obtain ⟨d, a, s, o, hin, hd, hs, f1, f2, f3, f4, f5, f6⟩ := callback_ok_fold env g g1 r m hm hcb
  have hroot : m.get_match_root = r := by
    obtain ⟨_, d, a, _, _, _, hmm⟩ := (match_some_iff g r m).mp hm
    rw [hmm]; rfl
  obtain ⟨hlt, _, _, hold, hk, _, _⟩ := callback_ok_nodes env g g1 m hcb
  have hpo := pshape_of_get_shape _ _ f3
  refine ⟨d, a, s, o, hin, hs, hk, ?_, ?_, f3, f4, f5, by rw [f5, hpo], ?_, ?_⟩
  · intro c k hck
    by_cases hc : c < g.nodes.length
    · rw [(hold c hc).1, get?_map_rewire _ _ _ _ _ hck, hroot, if_pos rfl]
    · rw [node_of_ge g c (Nat.le_of_not_lt hc)] at hck
      cases hck
  · rw [f1, f2]
  · rw [f6, List.length_replicate]
  · intro henv
    obtain ⟨d1, a1, s1, hin1, _, hs1, _, e1, e2, _, _, _⟩ :=
      callback_ok_matched env g g1 r m henv hm hcb
    rw [hin] at hin1
    have hdd : d = d1 := by simpa using (List.cons.inj hin1).1
    subst hdd
    rw [hs] at hs1
    have hss : s = s1 := Except.ok.inj hs1
    subst hss
    have ho : o = reduce s (get_reduction_axes g (g.node r)) (g.node r).keep_dims := by
      have h1 : o.map some
          = (reduce s (get_reduction_axes g (g.node r)) (g.node r).keep_dims).map some := by
        rw [← hpo, ← f5, e2]
      exact List.map_injective_iff.mpr (Option.some_injective _) h1
    refine ⟨e1, ho, ?_, ?_⟩
    · rw [length_coordinates, Nat.mul_one, ho]
    · intro hax
      rw [e2, List.length_map]
      exact length_reduce s _ _ hax

/-- The shape law on scenario B (rank 2 to rank 1, two elements) and on a keep-dims reduction
(rank 2 kept). -/
theorem folded_constant_shape_law_witness :
    ((scenario_B_folded.node 4).type_info = .Constant ∧
      (scenario_B_folded.node 4).pshape = (scenario_B_folded.node 2).pshape ∧
      (scenario_B_folded.node 4).data.length = 2 ∧
      (scenario_B_folded.node 4).pshape.length = 1) ∧
    ((constant_logical_reduction_callback example_env scenario_keep example_match).1.node
        4).pshape.length = 2 := by
  constructor
  · obtain ⟨d, a, s, o, h1, h2, h3, _, _, h6, _, h8, _, h10, h11⟩ :=
      folded_constant_shape_law example_env scenario_B scenario_B_folded 2 example_match
        (by decide) rfl
    have h1a : [0, 1] = [d, a] := h1
    obtain ⟨rfl, rfl⟩ : 0 = d ∧ 1 = a := by simpa using h1a
    have h2a : (Except.ok [2, 3] : Except String Shape) = .ok s := h2
    have hs : s = [2, 3] := (Except.ok.inj h2a).symm
    subst hs
    have h6a : (Except.ok [2] : Except String Shape) = .ok o := h6
    have ho : o = [2] := (Except.ok.inj h6a).symm
    subst ho
    exact ⟨h3, h8, h10, (h11 example_env_infers).2.2.2 (by decide)⟩
  · obtain ⟨d, a, s, o, h1, h2, _, _, _, _, _, _, _, _, h11⟩ :=
      folded_constant_shape_law example_env scenario_keep
        (constant_logical_reduction_callback example_env scenario_keep example_match).1
        2 example_match (by decide) rfl
    have h1a : [0, 1] = [d, a] := h1
    obtain ⟨rfl, rfl⟩ : 0 = d ∧ 1 = a := by simpa using h1a
    have h2b : (Except.ok [2, 3] : Except String Shape) = .ok s := h2
    have hs : s = [2, 3] := (Except.ok.inj h2b).symm
    subst hs
    exact (h11 example_env_infers).2.2.2 (by decide)

end ngraph

namespace hello_nv12

/-! ## Decimal digits -/

theorem digitChar_isdigit (k : Nat) (h : k < 10) :
    isdigit (Nat.digitChar k) = true ∧ (Nat.digitChar k).toNat - 48 = k := by
  interval_cases k <;> exact ⟨by decide, by decide⟩

theorem toDigitsCore_isdigit :
    ∀ (fuel n : Nat) (ds : List Char), (∀ c ∈ ds, isdigit c = true) →
      ∀ c ∈ Nat.toDigitsCore 10 fuel n ds, isdigit c = true := by
  intro fuel
  induction fuel with
  | zero => intro n ds h c hc; exact h c hc
  | succ fuel ih =>
    intro n ds h c hc
    have hd : ∀ c ∈ Nat.digitChar (n % 10) :: ds, isdigit c = true := by
      intro c hc
      rcases List.mem_cons.mp hc with h1 | h1
      · rw [h1]; exact (digitChar_isdigit _ (Nat.mod_lt _ (by decide))).1
      · exact h c h1
    unfold Nat.toDigitsCore at hc
    by_cases h0 : n / 10 = 0
    · simp only [h0, if_true] at hc
      exact hd c hc
    · simp only [h0, if_false] at hc
      exact ih _ _ hd c hc

theorem toDigitsCore_ne_nil (fuel n : Nat) (ds : List Char) :
    Nat.toDigitsCore 10 (fuel + 1) n ds ≠ [] := by
  induction fuel generalizing n ds with
  | zero =>
    unfold Nat.toDigitsCore
    by_cases h0 : n / 10 = 0
    · simp [h0]
    · simp [h0, Nat.toDigitsCore]
  | succ fuel ih =>
    unfold Nat.toDigitsCore
    by_cases h0 : n / 10 = 0
    · simp [h0]
    · simp only [h0, if_false]
      exact ih _ _

theorem toDigitsCore_value :
    ∀ (fuel n : Nat) (ds : List Char), n < fuel →
      (Nat.toDigitsCore 10 fuel n ds).foldl (fun a c => a * 10 + (c.toNat - 48)) 0
        = ds.foldl (fun a c => a * 10 + (c.toNat - 48)) n := by
  intro fuel
  induction fuel with
  | zero => intro n ds h; omega
  | succ fuel ih =>
    intro n ds h
    have hdv := (digitChar_isdigit (n % 10) (Nat.mod_lt _ (by decide))).2
    unfold Nat.toDigitsCore
    by_cases h0 : n / 10 = 0
    · simp only [h0, if_true, List.foldl_cons, hdv]
      have : n % 10 = n := by omega
      simp [this]
    · simp only [h0, if_false]
      rw [ih (n / 10) _ (by omega), List.foldl_cons, hdv]
      have : n / 10 * 10 + n % 10 = n := by omega
      rw [this]

/-- The decimal digits of a number: never empty, all digits, and worth the number. -/
theorem toDigits_spec (n : Nat) :
    Nat.toDigits 10 n ≠ [] ∧ (∀ c ∈ Nat.toDigits 10 n, isdigit c = true) ∧
    digits_value (Nat.toDigits 10 n) = n := by
  refine ⟨toDigitsCore_ne_nil n n [], ?_, ?_⟩
  · exact toDigitsCore_isdigit (n + 1) n [] (fun c hc => by simp at hc)
  · exact toDigitsCore_value (n + 1) n [] (Nat.lt_succ_self n)

/-! ## The pieces of `parseImageSize` -/

theorem isdigit_facts (c : Char) (h : isdigit c = true) :
    isspace c = false ∧ c ≠ '-' ∧ c ≠ '+' ∧ c ≠ 'x' := by
  simp only [isdigit, Bool.and_eq_true, decide_eq_true_eq] at h
  refine ⟨?_, ?_, ?_, ?_⟩
  · simp only [isspace, Bool.or_eq_false_iff, decide_eq_false_iff_not, Bool.and_eq_false_iff]
    omega
  · intro hc; rw [hc] at h; revert h; decide
  · intro hc; rw [hc] at h; revert h; decide
  · intro hc; rw [hc] at h; revert h; decide

theorem takeWhile_all {α : Type} (p : α → Bool) :
    ∀ l : List α, (∀ c ∈ l, p c = true) → l.takeWhile p = l := by
  intro l
  induction l with
  | nil => intro _; rfl
  | cons a l ih =>
    intro h
    rw [List.takeWhile_cons, h a (List.mem_cons_self a l), if_pos rfl,
      ih (fun c hc => h c (List.mem_cons_of_mem a hc))]

/-- On a non-empty run of digits worth at most `ULLONG_MAX`, `stoull` gives its value. -/
theorem stoull_digits (ds : List Char) (hne : ds ≠ []) (hd : ∀ c ∈ ds, isdigit c = true)
    (hv : digits_value ds ≤ ULLONG_MAX) : stoull ds = .ok (digits_value ds) := by
  obtain ⟨c, r, rfl⟩ := List.exists_cons_of_ne_nil hne
  obtain ⟨h1, h2, h3, _⟩ := isdigit_facts c (hd c (List.mem_cons_self c r))
  have hdrop : (c :: r).dropWhile isspace = c :: r := by
    rw [List.dropWhile_cons, h1]; rfl
  unfold stoull
  simp only [hdrop, List.head?_cons, Option.some.injEq, h2, h3, or_self, if_false,
    decide_False, Bool.false_eq_true, takeWhile_all isdigit (c :: r) hd, reduceCtorEq,
    Nat.not_lt.mpr hv]

theorem find_append (c : Char) :
    ∀ (l1 l2 : List Char), c ∉ l1 → find c (l1 ++ c :: l2) = some l1.length := by
  intro l1
  induction l1 with
  | nil => intro l2 _; simp [find]
  | cons a l1 ih =>
    intro l2 h
    simp only [List.mem_cons, not_or] at h
    have ha : ¬ a = c := fun e => h.1 e.symm
    simp [find, ha, ih l2 h.2]

theorem substr_width (l1 l2 : List Char) (c : Char) :
    substr (l1 ++ c :: l2) 0 l1.length = l1 := by
  simp [substr]

theorem substr_height (l1 l2 : List Char) (c : Char) :
    substr (l1 ++ c :: l2) (l1.length + 1) (l1 ++ c :: l2).length = l2 := by
  have h : (l1 ++ c :: l2).drop (l1.length + 1) = l2 := by
    have h1 : l1 ++ c :: l2 = (l1 ++ [c]) ++ l2 := by simp
    have h2 : l1.length + 1 = (l1 ++ [c]).length := by simp
    rw [h1, h2, List.drop_left]
  unfold substr
  rw [h]
  apply List.take_of_length_le
  simp
  omega

/-- What `parseImageSize` does on `w ++ "x" ++ h` when `w` has no `x`: the checks on the
position of the delimiter pass when both parts are non-empty, and the two parts go to
`stoull`. -/
theorem parseImageSize_split (s : String) (l1 l2 : List Char) (hs : s.data = l1 ++ 'x' :: l2)
    (hx : 'x' ∉ l1) (h1 : l1 ≠ []) (h2 : l2 ≠ []) :
    parseImageSize s =
      match stoull l1 with
      | .error e => .error e
      | .ok width =>
        match stoull l2 with
        | .error e => .error e
        | .ok height =>
          if width = 0 ∨ height = 0 then .error zero_error
          else if width % 2 ≠ 0 ∨ height % 2 ≠ 0 then .error odd_error
          else .ok (width, height) := by
  have hl1 : 0 < l1.length := List.length_pos.mpr h1
  have hl2 : 0 < l2.length := List.length_pos.mpr h2
  have hcond : ¬ (l1.length ≥ (l1 ++ 'x' :: l2).length - 1 ∨ l1.length = 0) := by
    simp only [List.length_append, List.length_cons]
    omega
  unfold parseImageSize
  simp only [hs, find_append 'x' l1 l2 hx, if_neg hcond, substr_width, substr_height]

/-- C12: for all natural numbers `W` and `H` below 2^64, `parseImageSize` applied to the
decimal digits of `W`, the character `x` and the decimal digits of `H` returns exactly
`(W, H)` when both are nonzero and even, and raises an error otherwise: the zero error when
one of them is 0, else the odd-size error when one of them is odd. -/
theorem parseImageSize_digits (W H : Nat) (hW : W < 2 ^ 64) (hH : H < 2 ^ 64) :
    parseImageSize (Nat.repr W ++ "x" ++ Nat.repr H) =
      if W = 0 ∨ H = 0 then .error zero_error
      else if W % 2 ≠ 0 ∨ H % 2 ≠ 0 then .error odd_error
      else .ok (W, H) := by
  obtain ⟨w1, w2, w3⟩ := toDigits_spec W
  obtain ⟨v1, v2, v3⟩ := toDigits_spec H
  have hs : (Nat.repr W ++ "x" ++ Nat.repr H).data
      = Nat.toDigits 10 W ++ 'x' :: Nat.toDigits 10 H := by
    simp [String.data_append, Nat.repr, List.asString]
  have hx : 'x' ∉ Nat.toDigits 10 W := fun h => (isdigit_facts 'x' (w2 'x' h)).2.2.2 rfl
  have hsw := stoull_digits _ w1 w2 (by rw [w3]; unfold ULLONG_MAX; omega)
  have hsh := stoull_digits _ v1 v2 (by rw [v3]; unfold ULLONG_MAX; omega)
  rw [parseImageSize_split _ _ _ hs hx w1 v1, hsw, hsh, w3, v3]

/-- The size `640x480` is accepted, `640x481` and `0x480` are refused. -/
theorem parseImageSize_digits_witness :
    parseImageSize "640x480" = .ok (640, 480) ∧
    parseImageSize "640x481" = .error odd_error ∧
    parseImageSize "0x480" = .error zero_error :=
  ⟨parseImageSize_digits 640 480 (by decide) (by decide),
   parseImageSize_digits 640 481 (by decide) (by decide),
   parseImageSize_digits 0 480 (by decide) (by decide)⟩

/-! ## Strings that are not WIDTHxHEIGHT -/

/-- The checks `parseImageSize` makes itself: a string without `x`, or with its first `x` as
first or as last character, raises the format error. -/
theorem parseImageSize_format_error (s : String)
    (h : find 'x' s.data = none ∨ find 'x' s.data = some 0 ∨
      find 'x' s.data = some (s.data.length - 1)) :
    parseImageSize s = .error (format_error s) := by
  unfold parseImageSize
  rcases h with h | h | h
  · simp only [h]
  · simp only [h, or_true, if_true]
  · simp only [h, ge_iff_le, le_refl, true_or, if_true]

/-- C13 fails on the code: the number parts are left to `std::stoull`, which ignores what
follows the digits and accepts white space and a sign before them. A second `x` or other
trailing characters after the height, and white space or a sign before a number, are accepted
and yield a size, a minus sign even the wrapped value 2^64 - 2; a part that starts with no
number raises `std::invalid_argument`, not the format error. -/
theorem parseImageSize_accepts_malformed :
    parseImageSize "640x480x3" = .ok (640, 480) ∧
    parseImageSize "640x480abc" = .ok (640, 480) ∧
    parseImageSize " 640x480" = .ok (640, 480) ∧
    parseImageSize "+640x480" = .ok (640, 480) ∧
    parseImageSize "640x 480" = .ok (640, 480) ∧
    parseImageSize "-2x4" = .ok (18446744073709551614, 4) ∧
    parseImageSize "ax4" = .error (.invalid_argument "stoull") ∧
    parseImageSize "640x" = .error (format_error "640x") ∧
    parseImageSize "x480" = .error (format_error "x480") ∧
    parseImageSize "640" = .error (format_error "640") :=
  ⟨rfl, rfl, rfl, rfl, rfl, rfl, rfl, rfl, rfl, rfl⟩

/-! ## The NV12 buffer -/

/-- A size `parseImageSize` returns is nonzero and even in both parts. -/
theorem parseImageSize_ok (s : String) (W H : Nat) (h : parseImageSize s = .ok (W, H)) :
    W ≠ 0 ∧ H ≠ 0 ∧ W % 2 = 0 ∧ H % 2 = 0 := by
  unfold parseImageSize at h
  dsimp only at h
  split at h
  · cases h
  · split at h
    · cases h
    · split at h
      · cases h
      · split at h
        · cases h
        · split at h
          · cases h
          · split at h
            · cases h
            · rename_i hz ho
              have h1 := Except.ok.inj h
              have hw := congrArg Prod.fst h1
              have hh := congrArg Prod.snd h1
              simp only at hw hh
              subst hw hh
              omega

/-- C14: for every width `W` and height `H` that `parseImageSize` accepts, when the products
do not overflow, the number of bytes read for the NV12 image, `W * (H * 3 / 2)`, is the size
`W * H` of the Y plane plus the size `2 * (H / 2) * (W / 2)` of the UV plane; the UV blob
starts at offset `W * H`, right after the Y plane, and ends exactly at the end of the buffer,
so neither plane reads past it. -/
theorem nv12_planes_fill_buffer (s : String) (W H : Nat)
    (hp : parseImageSize s = .ok (W, H))
    (h3 : H * 3 < 2 ^ 64) (hsz : W * (H * 3 / 2) < 2 ^ 64) :
    image_read_size W H = W * (H * 3 / 2) ∧
    blob_byte_size (y_plane_dims W H) = W * H ∧
    blob_byte_size (uv_plane_dims W H) = 2 * (H / 2) * (W / 2) ∧
    uv_offset W H = blob_byte_size (y_plane_dims W H) ∧
    image_read_size W H
      = blob_byte_size (y_plane_dims W H) + blob_byte_size (uv_plane_dims W H) ∧
    uv_offset W H + blob_byte_size (uv_plane_dims W H) = image_read_size W H ∧
    blob_byte_size (y_plane_dims W H) ≤ image_read_size W H := by
  obtain ⟨_, _, hw, hh⟩ := parseImageSize_ok s W H hp
  obtain ⟨w, rfl⟩ : ∃ w, W = 2 * w := ⟨W / 2, by omega⟩
  obtain ⟨h, rfl⟩ : ∃ h, H = 2 * h := ⟨H / 2, by omega⟩
  have e1 : 2 * h * 3 / 2 = 3 * h := by omega
  have e2 : 2 * h / 2 = h := by omega
  have e3 : 2 * w / 2 = w := by omega
  rw [e1] at hsz
  have hread : image_read_size (2 * w) (2 * h) = 2 * w * (3 * h) := by
    unfold image_read_size
    rw [Nat.mod_eq_of_lt h3, e1, Nat.mod_eq_of_lt hsz]
  have hy : blob_byte_size (y_plane_dims (2 * w) (2 * h)) = 2 * w * (2 * h) := by
    simp [blob_byte_size, y_plane_dims]; ring
  have huv : blob_byte_size (uv_plane_dims (2 * w) (2 * h)) = 2 * h * w := by
    simp [blob_byte_size, uv_plane_dims, e2, e3]; ring
  have hle : 2 * w * (2 * h) ≤ 2 * w * (3 * h) := Nat.mul_le_mul_left _ (by omega)
  have hoff : uv_offset (2 * w) (2 * h) = 2 * w * (2 * h) := by
    unfold uv_offset
    exact Nat.mod_eq_of_lt (Nat.lt_of_le_of_lt hle hsz)
  have hsum : 2 * w * (3 * h) = 2 * w * (2 * h) + 2 * h * w := by ring
  refine ⟨by rw [hread, e1], hy, by rw [huv, e2, e3], by rw [hoff, hy], ?_, ?_, ?_⟩
  · rw [hread, hy, huv, hsum]
  · rw [hread, hoff, huv, hsum]
  · rw [hread, hy]; exact hle

/-- The image of size 640x480: 460800 bytes are read, 307200 for the Y plane and 153600 for
the UV plane, which starts at 307200. -/
theorem nv12_planes_fill_buffer_witness :
    image_read_size 640 480 = 460800 ∧
    blob_byte_size (y_plane_dims 640 480) = 307200 ∧
    blob_byte_size (uv_plane_dims 640 480) = 153600 ∧
    uv_offset 640 480 = 307200 ∧
    uv_offset 640 480 + blob_byte_size (uv_plane_dims 640 480) = image_read_size 640 480 :=
  have h := nv12_planes_fill_buffer "640x480" 640 480 rfl (by decide) (by decide)
  ⟨h.1, h.2.1, h.2.2.1, h.2.2.2.1.trans h.2.1, h.2.2.2.2.2.1⟩

end hello_nv12
